import Mathlib

/-
Verification of the GnuCash-Dashboard aggregation core.

This file is a shallow embedding, in Lean 4, of the FX-aware aggregation
engine and the Sankey drill-down model builder of the GnuCash-Dashboard
repository, together with proofs of the behavioural properties stated in
the repository specification.

Embedding conventions:
  - Python `Decimal` values are modelled as `ℚ` (exact rational arithmetic;
    the repository only multiplies, adds and divides small exact decimals).
  - Python `dict` (insertion-ordered, unique keys) is modelled as an
    association list `List (α × β)` together with the operations `dlookup`
    (first match), `dinsert` (update-in-place-or-append, exactly the
    semantics of `d[k] = v`), and `dpop` (remove the entry, the semantics
    of `d.pop(k, None)`).
  - Nullable / falsy string columns are modelled as `String`, with the
    empty string playing the role of a Python-falsy value (both `None` and
    `""` fail the `if not x:` tests in the source); genuinely optional
    category labels are modelled as `Option String`.
  - Logging side channels are either dropped (when no claim depends on
    them) or reified as an explicit list of structured warnings.

Sources embedded (paths relative to the repository root):
  - src/application/use_cases/get_net_worth_summary.py
  - src/application/use_cases/get_asset_category_breakdown.py
  - src/application/use_cases/get_cashflow.py
  - src/application/use_cases/fx_utils.py
  - src/domain/services/finance.py, validation.py, normalization.py
  - src/domain/models/finance.py, gnucash_rows.py
  - src/utils/decimal_utils.py
  - src/adapters/interface/streamlit/sankey_cashflow.py
-/

namespace GnuCashDash

/-! ### Association-list model of Python dict -/

/-- First-match lookup, the semantics of `d.get(k)` on a Python dict
(which cannot hold duplicate keys; on duplicate-free lists this is the
unique binding). -/
def dlookup {α β : Type} [DecidableEq α] (k : α) : List (α × β) → Option β
  | [] => none
  | (k₁, v) :: rest => if k₁ = k then some v else dlookup k rest

/-- The semantics of `d[k] = v` on a Python dict: replace the value in
place if the key is present, otherwise append the new binding at the end
(Python dicts preserve insertion order). -/
def dinsert {α β : Type} [DecidableEq α] : List (α × β) → α → β → List (α × β)
  | [], k, v => [(k, v)]
  | (k₁, v₁) :: rest, k, v =>
      if k₁ = k then (k₁, v) :: rest else (k₁, v₁) :: dinsert rest k v

/-- The semantics of `d.pop(k, None)` on a Python dict: drop the binding
for `k` (the first one, on an association list). -/
def dpop {α β : Type} [DecidableEq α] : List (α × β) → α → List (α × β)
  | [], _ => []
  | (k₁, v₁) :: rest, k => if k₁ = k then rest else (k₁, v₁) :: dpop rest k

/-- Key list of an association list. -/
def dkeys {α β : Type} (m : List (α × β)) : List α := m.map Prod.fst

/-! ### String primitives

Kernel-computable models of the Python string methods used by the
source (`upper`, `lower`, `strip`, `split(":")`, `":".join`), defined
over character lists. ASCII case mapping and the common whitespace
characters suffice for the ledger data the source manipulates. -/

/-- ASCII uppercase of one character (`str.upper` per character). -/
def char_to_upper (c : Char) : Char :=
  if 97 ≤ c.toNat ∧ c.toNat ≤ 122 then Char.ofNat (c.toNat - 32) else c

/-- ASCII lowercase of one character (`str.lower` per character). -/
def char_to_lower (c : Char) : Char :=
  if 65 ≤ c.toNat ∧ c.toNat ≤ 90 then Char.ofNat (c.toNat + 32) else c

/-- Models `str.upper` (ASCII). -/
def str_to_upper (s : String) : String := ⟨s.data.map char_to_upper⟩

/-- Models `str.lower` (ASCII). -/
def str_to_lower (s : String) : String := ⟨s.data.map char_to_lower⟩

/-- Whitespace for `str.strip`. -/
def is_py_space (c : Char) : Bool := c = ' ' ∨ c = '\t' ∨ c = '\n' ∨ c = '\r'

/-- Models `str.strip`: drop leading and trailing whitespace. -/
def str_strip (s : String) : String :=
  ⟨((s.data.dropWhile is_py_space).reverse.dropWhile is_py_space).reverse⟩

/-- Models `str.split(":")` on the character list: the separators are
dropped and every (possibly empty) field between them is kept. -/
def split_on_colon : List Char → List (List Char)
  | [] => [[]]
  | c :: rest =>
      if c = ':' then [] :: split_on_colon rest
      else
        match split_on_colon rest with
        | [] => [[c]]
        | g :: gs => (c :: g) :: gs

/-- Models `":".join`. -/
def join_colon : List String → String
  | [] => ""
  | [p] => p
  | p :: rest => p ++ ":" ++ join_colon rest

/-- Lexicographic strict order on character lists by code point, the
comparison Python uses between strings. -/
def chars_lt : List Char → List Char → Bool
  | [], [] => false
  | [], _ :: _ => true
  | _ :: _, [] => false
  | a :: as, b :: bs =>
      if a.toNat < b.toNat then true
      else if b.toNat < a.toNat then false
      else chars_lt as bs

/-- Models Python `<` on strings. -/
def str_lt (a b : String) : Bool := chars_lt a.data b.data

/-- Models Python `<=` on strings. -/
def str_le (a b : String) : Bool := str_lt a b || a == b

/-- A stable insertion step: the new element lands after every element
that compares less-or-equal to it. -/
def py_insert {α : Type} (le : α → α → Bool) (a : α) : List α → List α
  | [] => [a]
  | b :: rest => if le b a then b :: py_insert le a rest else a :: b :: rest

/-- Models Python `sorted`: a stable sort by the given (total preorder)
comparison. A stable sort is extensionally unique, so this insertion
sort computes exactly the list Python's stable merge sort returns. -/
def py_sorted {α : Type} (le : α → α → Bool) (l : List α) : List α :=
  l.foldl (fun acc a => py_insert le a acc) []

/-! ### Decimal normalization and FX conversion

Embeds `src/utils/decimal_utils.py` (`coerce_decimal`),
`src/application/use_cases/fx_utils.py` (`convert_balance` and the
rate-folding loop of `fetch_latest_prices`, lines 81-93; the identical
loop also appears as `GetNetWorthSummaryUseCase._fetch_latest_prices`,
lines 230-244) and `src/domain/services/normalization.py`. -/

/-- Embeds `coerce_decimal`: `None` coerces to `0`, any numeric value to
its exact decimal, modelled here as `ℚ`. -/
def coerce_decimal (value : Option ℚ) : ℚ := value.getD 0

/-- Price row (`src/domain/models/gnucash_rows.py`, `PriceRow`; the SQL
variant additionally carries a date, which the rate-folding loop never
reads, rows arriving already ordered newest-first). Numeric columns are
nullable, hence `Option ℚ` fed through `coerce_decimal`. -/
structure PriceRow where
  commodity_guid : String
  value_num : Option ℚ
  value_denom : Option ℚ
deriving DecidableEq, Repr

/-- The rate-accumulation loop of `fetch_latest_prices`
(`fx_utils.py` lines 81-93): rows already holding a rate are skipped,
zero-denominator rows are skipped (with a logged warning, dropped here),
otherwise `rates[guid] = num / denom`. -/
def price_map_loop (rates : List (String × ℚ)) : List PriceRow → List (String × ℚ)
  | [] => rates
  | row :: rest =>
      if (dlookup row.commodity_guid rates).isSome then
        price_map_loop rates rest
      else
        let denom := coerce_decimal row.value_denom
        if denom = 0 then
          price_map_loop rates rest
        else
          price_map_loop
            (dinsert rates row.commodity_guid (coerce_decimal row.value_num / denom))
            rest

/-- The price map construction: fold the rows of `fetch_latest_prices`
starting from an empty dict (this is the behaviour the repository names
`build_price_map` in its domain layer). -/
def build_price_map (rows : List PriceRow) : List (String × ℚ) :=
  price_map_loop [] rows

/-- Specification-side companion of `build_price_map`: the first row for
a commodity whose denominator coerces to a nonzero value. -/
def first_valid_price_row (g : String) : List PriceRow → Option PriceRow
  | [] => none
  | row :: rest =>
      if row.commodity_guid = g ∧ coerce_decimal row.value_denom ≠ 0 then some row
      else first_valid_price_row g rest

/-- Rate attached to a price row: numerator divided by denominator. -/
def price_row_rate (row : PriceRow) : ℚ :=
  coerce_decimal row.value_num / coerce_decimal row.value_denom

/-- Embeds `fx_utils.convert_balance` (and the byte-identical
`GetNetWorthSummaryUseCase._convert_balance` /
`GetAssetCategoryBreakdownUseCase._convert_balance`). The empty string
stands for a Python-falsy commodity guid or mnemonic. Returns `none`
when the row must be skipped. -/
def convert_balance (balance : ℚ) (commodity_guid mnemonic namespace_ : String)
    (target_guid target_currency : String) (prices : List (String × ℚ)) : Option ℚ :=
  if commodity_guid = "" ∨ mnemonic = "" then none
  else if str_to_upper namespace_ = "TEMPLATE" ∨ str_to_lower mnemonic = "template" then none
  else if namespace_ = "CURRENCY" ∧
      (commodity_guid = target_guid ∨ mnemonic = target_currency) then some balance
  else
    match dlookup commodity_guid prices with
    | none => none
    | some rate => some (balance * rate)

/-- Embeds `normalize_namespace` (`src/domain/services/normalization.py`):
falsy in, falsy out; otherwise strip and uppercase (an all-whitespace
value also normalizes to falsy). The Python `None` result is encoded as
the empty string, which is equally falsy downstream. -/
def normalize_namespace (namespace_ : String) : String :=
  if namespace_ = "" then ""
  else
    let cleaned := str_strip namespace_
    if cleaned = "" then "" else str_to_upper cleaned

/-- Embeds `normalize_mnemonic`, whose body is identical to
`normalize_namespace`. -/
def normalize_mnemonic (mnemonic : String) : String :=
  if mnemonic = "" then ""
  else
    let cleaned := str_strip mnemonic
    if cleaned = "" then "" else str_to_upper cleaned

/-! ### Net worth aggregation

Embeds `GetNetWorthSummaryUseCase.execute`
(`src/application/use_cases/get_net_worth_summary.py`, lines 98-134) and
the domain-service variant `compute_net_worth_summary`
(`src/domain/services/finance.py`, lines 24-90), which additionally
normalizes commodity fields and runs `validate_balance_sign`. -/

/-- Default asset account types (`get_net_worth_summary.py` lines 14-21). -/
def DEFAULT_ASSET_TYPES : List String :=
  ["ASSET", "BANK", "CASH", "STOCK", "MUTUAL", "RECEIVABLE"]

/-- Default liability account types (`get_net_worth_summary.py` lines 22-26). -/
def DEFAULT_LIABILITY_TYPES : List String := ["LIABILITY", "CREDIT", "PAYABLE"]

/-- Balance row for the net-worth computation
(`src/domain/models/gnucash_rows.py`, `NetWorthBalanceRow`). Nullable
string columns are encoded as `String` with `""` for the falsy values;
the balance is nullable and fed through `coerce_decimal`. -/
structure NetWorthBalanceRow where
  account_type : String
  commodity_guid : String
  mnemonic : String
  namespace_ : String
  balance : Option ℚ
deriving DecidableEq, Repr

/-- Embeds `NetWorthSummary` (`get_net_worth_summary.py` lines 29-43). -/
structure NetWorthSummary where
  asset_total : ℚ
  liability_total : ℚ
  net_worth : ℚ
  currency_code : String
deriving DecidableEq, Repr

/-- The balance-accumulation loop of `GetNetWorthSummaryUseCase.execute`
(lines 101-120): rows in neither type set are skipped, conversion
failures are skipped, assets accumulate directly, liabilities as
absolute value. -/
def net_worth_loop (asset_types liability_types : List String)
    (target_guid target_currency : String) (prices : List (String × ℚ))
    (asset_total liability_total : ℚ) : List NetWorthBalanceRow → ℚ × ℚ
  | [] => (asset_total, liability_total)
  | row :: rest =>
      if row.account_type ∉ asset_types ∧ row.account_type ∉ liability_types then
        net_worth_loop asset_types liability_types target_guid target_currency prices
          asset_total liability_total rest
      else
        match convert_balance (coerce_decimal row.balance) row.commodity_guid
            row.mnemonic row.namespace_ target_guid target_currency prices with
        | none =>
            net_worth_loop asset_types liability_types target_guid target_currency prices
              asset_total liability_total rest
        | some converted =>
            if row.account_type ∈ asset_types then
              net_worth_loop asset_types liability_types target_guid target_currency prices
                (asset_total + converted) liability_total rest
            else
              net_worth_loop asset_types liability_types target_guid target_currency prices
                asset_total (liability_total + |converted|) rest

/-- Embeds `GetNetWorthSummaryUseCase.execute` from the point where the
rows have been fetched: build the latest-price map, fold the balances,
and return the summary with `net_worth = asset_total - liability_total`. -/
def execute_net_worth (asset_types liability_types : List String)
    (target_guid target_currency : String)
    (balances : List NetWorthBalanceRow) (price_rows : List PriceRow) :
    NetWorthSummary :=
  let prices := build_price_map price_rows
  let totals := net_worth_loop asset_types liability_types target_guid target_currency
    prices 0 0 balances
  ⟨totals.1, totals.2, totals.1 - totals.2, target_currency⟩

/-- Structured form of the warnings logged by `validate_balance_sign`
(`src/domain/services/validation.py`, lines 8-31). -/
inductive BalanceSignWarning
  | asset_negative (account_type : String) (balance : ℚ)
  | liability_positive (account_type : String) (balance : ℚ)
deriving DecidableEq, Repr

/-- Embeds `validate_balance_sign`: the function only logs; here the
emitted warnings are returned so their presence can be reasoned about.
An asset-typed negative balance and a liability-typed positive balance
each produce one warning; nothing is rejected. -/
def validate_balance_sign (account_type : String) (balance : ℚ)
    (asset_types liability_types : List String) : List BalanceSignWarning :=
  (if account_type ∈ asset_types ∧ balance < 0 then
    [BalanceSignWarning.asset_negative account_type balance] else [])
  ++ (if account_type ∈ liability_types ∧ 0 < balance then
    [BalanceSignWarning.liability_positive account_type balance] else [])

/-- Field normalization applied by `compute_net_worth_summary` before it
calls `convert_balance` (the only difference, besides validation,
between the domain service and the use-case loop). -/
def normalize_balance_row (row : NetWorthBalanceRow) : NetWorthBalanceRow :=
  ⟨row.account_type, row.commodity_guid, normalize_mnemonic row.mnemonic,
    normalize_namespace row.namespace_, row.balance⟩

/-- The row loop of `compute_net_worth_summary`
(`src/domain/services/finance.py`, lines 52-82), with the logging side
channel reified as a warning list. -/
def compute_net_worth_loop (asset_types liability_types : List String)
    (currency_guid target_currency : String) (prices_map : List (String × ℚ))
    (asset_total liability_total : ℚ) (warnings : List BalanceSignWarning) :
    List NetWorthBalanceRow → ℚ × ℚ × List BalanceSignWarning
  | [] => (asset_total, liability_total, warnings)
  | row :: rest =>
      if row.account_type ∉ asset_types ∧ row.account_type ∉ liability_types then
        compute_net_worth_loop asset_types liability_types currency_guid target_currency
          prices_map asset_total liability_total warnings rest
      else
        let balance := coerce_decimal row.balance
        let warnings₁ := warnings ++
          validate_balance_sign row.account_type balance asset_types liability_types
        match convert_balance balance row.commodity_guid
            (normalize_mnemonic row.mnemonic) (normalize_namespace row.namespace_)
            currency_guid target_currency prices_map with
        | none =>
            compute_net_worth_loop asset_types liability_types currency_guid target_currency
              prices_map asset_total liability_total warnings₁ rest
        | some converted =>
            if row.account_type ∈ asset_types then
              compute_net_worth_loop asset_types liability_types currency_guid target_currency
                prices_map (asset_total + converted) liability_total warnings₁ rest
            else
              compute_net_worth_loop asset_types liability_types currency_guid target_currency
                prices_map asset_total (liability_total + |converted|) warnings₁ rest

/-- Embeds `compute_net_worth_summary` (`src/domain/services/finance.py`),
returning the summary together with the sign-convention warnings emitted
along the way. -/
def compute_net_worth_summary (balances : List NetWorthBalanceRow)
    (prices : List PriceRow) (asset_types liability_types : List String)
    (currency_guid target_currency : String) :
    NetWorthSummary × List BalanceSignWarning :=
  let prices_map := build_price_map prices
  let totals := compute_net_worth_loop asset_types liability_types currency_guid
    target_currency prices_map 0 0 [] balances
  (⟨totals.1, totals.2.1, totals.1 - totals.2.1, target_currency⟩, totals.2.2)

/-! ### Cashflow aggregation

Embeds `GetCashflowUseCase.execute`
(`src/application/use_cases/get_cashflow.py`, lines 65-136) and the
DTOs of `src/domain/models/finance.py`. -/

/-- Embeds `CashflowRow` (`src/domain/models/gnucash_rows.py`). The
amount is nullable at the SQL boundary and is fed through
`coerce_decimal`. -/
structure CashflowRow where
  account_guid : String
  account_full_name : String
  top_parent_name : Option String
  amount : Option ℚ
deriving DecidableEq, Repr

/-- Embeds `CashflowItem` (`src/domain/models/finance.py`, lines 54-60). -/
structure CashflowItem where
  account_full_name : String
  amount : ℚ
  top_parent_name : Option String := none
deriving DecidableEq, Repr

/-- Embeds `CashflowSummary` (`src/domain/models/finance.py`, lines 40-51). -/
structure CashflowSummary where
  total_in : ℚ
  total_out : ℚ
  currency_code : String
deriving DecidableEq, Repr

/-- Embeds the `difference` property: `total_in - total_out`. -/
def CashflowSummary.difference (s : CashflowSummary) : ℚ := s.total_in - s.total_out

/-- Embeds `CashflowView` (`src/domain/models/finance.py`, lines 63-69). -/
structure CashflowView where
  summary : CashflowSummary
  incoming : List CashflowItem
  outgoing : List CashflowItem
deriving DecidableEq, Repr

/-- Accumulator of the first loop of `GetCashflowUseCase.execute`
(lines 65-90): per-account incoming/outgoing totals, first-seen order
lists, and the name/top-parent metadata captured at the first nonzero
occurrence of each account. -/
structure CashflowAcc where
  incoming_totals : List (String × ℚ)
  outgoing_totals : List (String × ℚ)
  incoming_order : List String
  outgoing_order : List String
  metadata : List (String × (String × Option String))
deriving DecidableEq, Repr

/-- The first loop of `GetCashflowUseCase.execute` (lines 70-90):
zero-coercing rows are dropped; positive amounts accumulate into the
incoming totals, negative ones as absolute value into the outgoing
totals, each order list recording an account at its first contribution. -/
def cashflow_phase1 (acc : CashflowAcc) : List CashflowRow → CashflowAcc
  | [] => acc
  | row :: rest =>
      let amount := coerce_decimal row.amount
      if amount = 0 then cashflow_phase1 acc rest
      else
        let acc₁ :=
          if (dlookup row.account_guid acc.metadata).isSome then acc
          else { acc with metadata := (dinsert acc.metadata row.account_guid
            (row.account_full_name, row.top_parent_name)) }
        if 0 < amount then
          match dlookup row.account_guid acc₁.incoming_totals with
          | none =>
              cashflow_phase1
                { acc₁ with
                    incoming_order := acc₁.incoming_order ++ [row.account_guid],
                    incoming_totals := dinsert acc₁.incoming_totals row.account_guid amount }
                rest
          | some t =>
              cashflow_phase1
                { acc₁ with
                    incoming_totals := dinsert acc₁.incoming_totals row.account_guid
                      (t + amount) }
                rest
        else
          match dlookup row.account_guid acc₁.outgoing_totals with
          | none =>
              cashflow_phase1
                { acc₁ with
                    outgoing_order := acc₁.outgoing_order ++ [row.account_guid],
                    outgoing_totals := dinsert acc₁.outgoing_totals row.account_guid |amount| }
                rest
          | some t =>
              cashflow_phase1
                { acc₁ with
                    outgoing_totals := dinsert acc₁.outgoing_totals row.account_guid
                      (t + |amount|) }
                rest

/-- The second loop of `GetCashflowUseCase.execute` (lines 96-121): walk
an order list, skip zero totals, append one `CashflowItem` per account
and accumulate the grand total. -/
def cashflow_phase2 (totals : List (String × ℚ))
    (metadata : List (String × (String × Option String)))
    (items : List CashflowItem) (total : ℚ) : List String → List CashflowItem × ℚ
  | [] => (items, total)
  | guid :: rest =>
      let amount := (dlookup guid totals).getD 0
      if amount = 0 then cashflow_phase2 totals metadata items total rest
      else
        let meta := (dlookup guid metadata).getD ("", none)
        cashflow_phase2 totals metadata
          (items ++ [⟨meta.1, amount, meta.2⟩]) (total + amount) rest

/-- Embeds `GetCashflowUseCase.execute` from the point where the rows
have been fetched. -/
def execute_cashflow (target_currency : String) (rows : List CashflowRow) :
    CashflowView :=
  let acc := cashflow_phase1 ⟨[], [], [], [], []⟩ rows
  let inc := cashflow_phase2 acc.incoming_totals acc.metadata [] 0 acc.incoming_order
  let out := cashflow_phase2 acc.outgoing_totals acc.metadata [] 0 acc.outgoing_order
  ⟨⟨inc.2, out.2, target_currency⟩, inc.1, out.1⟩

/-- The metadata half of one iteration of the first cashflow loop:
record display name and top parent the first time an account
contributes a nonzero row. -/
def cashflow_step₁ (acc : CashflowAcc) (row : CashflowRow) : CashflowAcc :=
  if (dlookup row.account_guid acc.metadata).isSome then acc
  else { acc with metadata := (dinsert acc.metadata row.account_guid
    (row.account_full_name, row.top_parent_name)) }

/-- The totals half of one iteration of the first cashflow loop:
positive amounts feed the incoming totals, negative ones feed the
outgoing totals as absolute values. -/
def cashflow_step₂ (acc₁ : CashflowAcc) (row : CashflowRow) : CashflowAcc :=
  let amount := coerce_decimal row.amount
  if 0 < amount then
    match dlookup row.account_guid acc₁.incoming_totals with
    | none =>
        { acc₁ with
            incoming_order := acc₁.incoming_order ++ [row.account_guid],
            incoming_totals := dinsert acc₁.incoming_totals row.account_guid amount }
    | some t =>
        { acc₁ with
            incoming_totals := dinsert acc₁.incoming_totals row.account_guid
              (t + amount) }
  else
    match dlookup row.account_guid acc₁.outgoing_totals with
    | none =>
        { acc₁ with
            outgoing_order := acc₁.outgoing_order ++ [row.account_guid],
            outgoing_totals := dinsert acc₁.outgoing_totals row.account_guid |amount| }
    | some t =>
        { acc₁ with
            outgoing_totals := dinsert acc₁.outgoing_totals row.account_guid
              (t + |amount|) }

/-- One full iteration of the first cashflow loop, as a function of the
accumulator. -/
def cashflow_step (acc : CashflowAcc) (row : CashflowRow) : CashflowAcc :=
  if coerce_decimal row.amount = 0 then acc
  else cashflow_step₂ (cashflow_step₁ acc row) row

/-- Keep the first occurrence of each element, dropping later
duplicates (the order in which a Python dict collects fresh keys). -/
def first_seen_aux {α : Type} [DecidableEq α] (seen : List α) : List α → List α
  | [] => []
  | x :: xs => if x ∈ seen then first_seen_aux seen xs
      else x :: first_seen_aux (x :: seen) xs

/-- First-seen deduplication of a list. -/
def first_seen {α : Type} [DecidableEq α] (l : List α) : List α := first_seen_aux [] l

/-- A row whose amount coerces to a positive value. -/
def is_pos_row (r : CashflowRow) : Bool := decide (0 < coerce_decimal r.amount)

/-- A row whose amount coerces to a negative value. -/
def is_neg_row (r : CashflowRow) : Bool := decide (coerce_decimal r.amount < 0)

/-- A row whose amount coerces to a nonzero value. -/
def is_nonzero_row (r : CashflowRow) : Bool := decide (coerce_decimal r.amount ≠ 0)

/-- A row attributed to the given account. -/
def row_has_guid (g : String) (r : CashflowRow) : Bool := decide (r.account_guid = g)

/-- Specification-side companion of the cashflow aggregation: the
accounts with a positive contribution, in first-seen order. -/
def incoming_guids_spec (rows : List CashflowRow) : List String :=
  first_seen ((rows.filter is_pos_row).map CashflowRow.account_guid)

/-- Specification-side companion: the accounts with a negative
contribution, in first-seen order. -/
def outgoing_guids_spec (rows : List CashflowRow) : List String :=
  first_seen ((rows.filter is_neg_row).map CashflowRow.account_guid)

/-- Specification-side companion: the first nonzero row of an account,
which fixes its display name and top parent. -/
def meta_find (rows : List CashflowRow) (g : String) : Option CashflowRow :=
  rows.find? (fun r => row_has_guid g r && is_nonzero_row r)

/-- Specification-side companion: name and top parent of an account. -/
def row_meta_spec (rows : List CashflowRow) (g : String) : String × Option String :=
  ((meta_find rows g).map (fun r => (r.account_full_name, r.top_parent_name))).getD ("", none)

/-- Specification-side companion: the sum of an account's positive
amounts. -/
def sum_pos_spec (rows : List CashflowRow) (g : String) : ℚ :=
  ((rows.filter (fun r => row_has_guid g r && is_pos_row r)).map
    (fun r => coerce_decimal r.amount)).sum

/-- Specification-side companion: the sum of the absolute values of an
account's negative amounts. -/
def sum_neg_spec (rows : List CashflowRow) (g : String) : ℚ :=
  ((rows.filter (fun r => row_has_guid g r && is_neg_row r)).map
    (fun r => |coerce_decimal r.amount|)).sum

/-- Specification-side companion: the incoming item list as the
specification words it — one item per account with a positive
contribution, in first-seen order, carrying the summed positive
amounts. -/
def incoming_items_spec (rows : List CashflowRow) : List CashflowItem :=
  (incoming_guids_spec rows).map (fun g =>
    ⟨(row_meta_spec rows g).1, sum_pos_spec rows g, (row_meta_spec rows g).2⟩)

/-- Specification-side companion: the outgoing item list — one item per
account with a negative contribution, in first-seen order, carrying the
summed absolute amounts. -/
def outgoing_items_spec (rows : List CashflowRow) : List CashflowItem :=
  (outgoing_guids_spec rows).map (fun g =>
    ⟨(row_meta_spec rows g).1, sum_neg_spec rows g, (row_meta_spec rows g).2⟩)

/-! ### Asset category breakdown

Embeds `GetAssetCategoryBreakdownUseCase.execute`
(`src/application/use_cases/get_asset_category_breakdown.py`,
lines 87-127) and `_resolve_category` (lines 279-285). -/

/-- Embeds `AssetCategoryBalanceRow` (`src/domain/models/gnucash_rows.py`):
a net-worth balance row extended with the category labels resolved by
the recursive account-tree query. -/
structure AssetCategoryBalanceRow where
  account_type : String
  commodity_guid : String
  mnemonic : String
  namespace_ : String
  actif_category : Option String
  actif_subcategory : Option String
  balance : Option ℚ
deriving DecidableEq, Repr

/-- Embeds `AssetCategoryAmount`. -/
structure AssetCategoryAmount where
  category : String
  amount : ℚ
  parent_category : Option String := none
deriving DecidableEq, Repr

/-- Embeds `AssetCategoryBreakdown`. -/
structure AssetCategoryBreakdown where
  currency_code : String
  categories : List AssetCategoryAmount
deriving DecidableEq, Repr

/-- Embeds `_resolve_category` (lines 279-285): `level=1` resolves the
top category, `level=2` the subcategory, anything else falls back to the
top category. -/
def resolve_category (row : AssetCategoryBalanceRow) (level : Nat) : Option String :=
  if level = 1 then row.actif_category
  else if level = 2 then row.actif_subcategory
  else row.actif_category

/-- Python truthiness of an optional string: `None` and `""` are falsy. -/
def falsy_opt_str (s : Option String) : Bool :=
  match s with
  | none => true
  | some v => v = ""

/-- The accumulation loop of `GetAssetCategoryBreakdownUseCase.execute`
(lines 88-113): non-asset rows and rows with a falsy resolved category
are skipped, conversion failures are skipped, converted amounts
accumulate under the key `(parent_category, category)` where
`parent_category` is the top category at `level=2` and `None` otherwise. -/
def breakdown_loop (asset_types : List String) (level : Nat)
    (target_guid target_currency : String) (prices : List (String × ℚ))
    (totals : List ((Option String × String) × ℚ)) :
    List AssetCategoryBalanceRow → List ((Option String × String) × ℚ)
  | [] => totals
  | row :: rest =>
      if row.account_type ∉ asset_types then
        breakdown_loop asset_types level target_guid target_currency prices totals rest
      else
        let category := resolve_category row level
        let parent_category := if level = 2 then row.actif_category else none
        if falsy_opt_str category then
          breakdown_loop asset_types level target_guid target_currency prices totals rest
        else
          match convert_balance (coerce_decimal row.balance) row.commodity_guid
              row.mnemonic row.namespace_ target_guid target_currency prices with
          | none =>
              breakdown_loop asset_types level target_guid target_currency prices totals rest
          | some converted =>
              let key := (parent_category, category.getD "")
              breakdown_loop asset_types level target_guid target_currency prices
                (dinsert totals key ((dlookup key totals).getD 0 + converted)) rest

/-- Strict order on the optional parent label, with `None` sorting
before any string (in any one call of the source every key has the same
parent shape, so the cross-shape comparison is never exercised). -/
def opt_str_lt (a b : Option String) : Bool :=
  match a, b with
  | none, none => false
  | none, some _ => true
  | some _, none => false
  | some x, some y => str_lt x y

/-- The sort order used on the grouping keys by `sorted(totals.items())`:
lexicographic on the `(parent, category)` tuple. -/
def breakdown_key_le (p q : Option String × String) : Bool :=
  opt_str_lt p.1 q.1 || (p.1 == q.1 && str_le p.2 q.2)

/-- Embeds `GetAssetCategoryBreakdownUseCase.execute` from the point
where the rows have been fetched: accumulate, then emit the category
amounts sorted by grouping key (Python sorts the `(key, amount)` pairs,
but keys are unique in a dict, so the sort is by key). -/
def execute_breakdown (asset_types : List String) (level : Nat)
    (target_guid target_currency : String)
    (rows : List AssetCategoryBalanceRow) (price_rows : List PriceRow) :
    AssetCategoryBreakdown :=
  let prices := build_price_map price_rows
  let totals := breakdown_loop asset_types level target_guid target_currency prices [] rows
  let sorted_totals := py_sorted (fun a b => breakdown_key_le a.1 b.1) totals
  ⟨target_currency,
    sorted_totals.map (fun kv => ⟨kv.1.2, kv.2, kv.1.1⟩)⟩

/-! ### Sankey model builder and interaction state

Embeds `src/adapters/interface/streamlit/sankey_cashflow.py`: the
`SankeyState` / `SankeyModel` data model, `parse_account_path`,
`level_key`, `_group_items_by_level`, `_add_node`, `build_sankey_model`
and `apply_click`. -/

/-- A node side: left, middle or right (the `"L"` / `"M"` / `"R"`
string literals of the source). -/
inductive Side
  | L
  | M
  | R
deriving DecidableEq, Repr

/-- The side key marker (`LEFT_PREFIX` / `MIDDLE_PREFIX` / `RIGHT_PREFIX`,
`sankey_cashflow.py` lines 31-33). -/
def side_pfx : Side → String
  | Side.L => "L:"
  | Side.M => "M:"
  | Side.R => "R:"

/-- Constant `MIDDLE_LABEL` of the source. -/
def MIDDLE_LABEL : String := "Actifs sélectionnés"

/-- Constant `SAVINGS_LABEL` of the source. -/
def SAVINGS_LABEL : String := "Épargne / Excédent"

/-- Constant `DEFICIT_LABEL` of the source. -/
def DEFICIT_LABEL : String := "Déficit"

/-- Constant `MIDDLE_KEY` of the source (`M:` + `ASSETS`). -/
def MIDDLE_KEY : String := "M:ASSETS"

/-- Constant `SAVINGS_KEY` of the source (`R:` + `SAVINGS`). -/
def SAVINGS_KEY : String := "R:SAVINGS"

/-- Constant `DEFICIT_KEY` of the source (`L:` + `DEFICIT`). -/
def DEFICIT_KEY : String := "L:DEFICIT"

/-- Embeds `SankeyState` (`sankey_cashflow.py` lines 44-65): drill-down
depth per root account on each side, plus the last-clicked marker. -/
structure SankeyState where
  left_level_default : Nat := 1
  right_level_default : Nat := 1
  left_focus : List (String × Nat) := []
  right_focus : List (String × Nat) := []
  allow_negative_diff : Bool := false
  last_clicked_side : Option Side := none
  last_clicked_root : Option String := none
deriving DecidableEq, Repr

/-- Embeds `SankeyState.reset_all` (lines 67-72). -/
def SankeyState.reset_all (s : SankeyState) : SankeyState :=
  { s with
      left_focus := [], right_focus := [],
      last_clicked_side := none, last_clicked_root := none }

/-- Embeds `SankeyState.reset_last_branch` (lines 74-81): a no-op when
either last-clicked field is falsy, otherwise pop the recorded root from
the recorded side's focus map (the source compares the side against
`"L"` and treats everything else as the right side). -/
def SankeyState.reset_last_branch (s : SankeyState) : SankeyState :=
  match s.last_clicked_side, s.last_clicked_root with
  | some side, some root =>
      if root = "" then s
      else if side = Side.L then { s with left_focus := dpop s.left_focus root }
      else { s with right_focus := dpop s.right_focus root }
  | _, _ => s

/-- Embeds `SankeyLink` (lines 84-90). -/
structure SankeyLink where
  source : Nat
  target : Nat
  value : ℚ
deriving DecidableEq, Repr

/-- Embeds `SankeyModel` (lines 93-104). The dict fields are modelled as
association lists; `root_by_key` maps a key to `Option String` because
middle and special nodes carry `root=None`. -/
structure SankeyModel where
  node_labels : List String
  node_keys : List String
  links : List SankeyLink
  key_by_index : List (Nat × String)
  side_by_key : List (String × Side)
  root_by_key : List (String × Option String)
  max_depth_left_by_root : List (String × Nat)
  max_depth_right_by_root : List (String × Nat)
deriving DecidableEq, Repr

/-- Embeds `parse_account_path` (lines 107-117): split on `":"`, strip
each part, drop the empty parts. -/
def parse_account_path (account_full_name : String) : List String :=
  (((split_on_colon account_full_name.data).map (fun cs => str_strip ⟨cs⟩)).filter
    (fun part => part ≠ ""))

/-- Embeds `level_key` (lines 120-133): the path joined up to depth `n`,
clamped to `[1, length]`; empty parts give the empty key. -/
def level_key (parts : List String) (n : Nat) : String :=
  if parts = [] then ""
  else join_colon (parts.take (max 1 (min n parts.length)))

/-- Accumulator of `_group_items_by_level` (lines 136-166). -/
structure GroupAcc where
  order : List String
  totals : List (String × ℚ)
  root_by_group : List (String × String)
  max_depth_by_root : List (String × Nat)
deriving DecidableEq, Repr

/-- The item loop of `_group_items_by_level` (lines 147-163): parse each
item path, track the deepest path seen per root, group the item at the
focus depth for its root (side default when unset) and accumulate the
amount per group key in first-seen order. -/
def group_items_loop (focus_by_root : List (String × Nat)) (default_level : Nat)
    (acc : GroupAcc) : List CashflowItem → GroupAcc
  | [] => acc
  | item :: rest =>
      match parse_account_path item.account_full_name with
      | [] => group_items_loop focus_by_root default_level acc rest
      | root :: tail =>
          let parts := root :: tail
          let acc₁ := { acc with max_depth_by_root := (dinsert acc.max_depth_by_root root
            (max ((dlookup root acc.max_depth_by_root).getD 0) parts.length)) }
          let requested_depth := (dlookup root focus_by_root).getD default_level
          let group := level_key parts requested_depth
          match dlookup group acc₁.totals with
          | none =>
              group_items_loop focus_by_root default_level
                { acc₁ with
                    order := acc₁.order ++ [group],
                    totals := dinsert acc₁.totals group item.amount,
                    root_by_group := dinsert acc₁.root_by_group group root }
                rest
          | some t =>
              group_items_loop focus_by_root default_level
                { acc₁ with totals := dinsert acc₁.totals group (t + item.amount) }
                rest

/-- Embeds `_group_items_by_level` (lines 136-166): returns the grouped
`(key, total, root)` triples in first-seen order together with the
per-root maximum observed depth. -/
def group_items_by_level (items : List CashflowItem)
    (focus_by_root : List (String × Nat)) (default_level : Nat) :
    List (String × ℚ × String) × List (String × Nat) :=
  let acc := group_items_loop focus_by_root default_level ⟨[], [], [], []⟩ items
  (acc.order.map (fun group =>
      (group, (dlookup group acc.totals).getD 0, (dlookup group acc.root_by_group).getD "")),
    acc.max_depth_by_root)

/-- The incremental node store of `build_sankey_model`: key list, label
list and the two key-indexed lookup maps, all grown together by
`_add_node`. -/
structure NodeBuilder where
  node_keys : List String
  node_labels : List String
  side_by_key : List (String × Side)
  root_by_key : List (String × Option String)
deriving DecidableEq, Repr

/-- Embeds `_add_node` (lines 169-187): an already-interned key returns
its existing index and changes nothing; a fresh key is appended to the
key and label lists and registered in both lookup maps, its index being
the previous length of the key list. -/
def add_node (b : NodeBuilder) (key label : String) (side : Side)
    (root : Option String) : Nat × NodeBuilder :=
  if (dlookup key b.side_by_key).isSome then
    (b.node_keys.indexOf key, b)
  else
    (b.node_keys.length,
      ⟨b.node_keys ++ [key], b.node_labels ++ [label],
        dinsert b.side_by_key key side, dinsert b.root_by_key key root⟩)

/-- The per-side node-creation loop of `build_sankey_model`
(lines 218-229 and 242-253): add one node per grouped entry, keyed by
the side marker plus the group key, and record the index per group. -/
def add_side_nodes (side : Side) (grouped : List (String × ℚ × String))
    (b : NodeBuilder) (index_by_group : List (String × Nat)) :
    List (String × Nat) × NodeBuilder :=
  match grouped with
  | [] => (index_by_group, b)
  | (group, _amount, root) :: rest =>
      let r := add_node b (side_pfx side ++ group) group side (some root)
      add_side_nodes side rest r.2 (dinsert index_by_group group r.1)

/-- Result of `build_sankey_model` together with the local indices the
source computes along the way (`middle_index`, `savings_index`,
`deficit_index`), exposed so that the creation of the optional
savings/deficit nodes can be stated directly. -/
structure SankeyBuild where
  model : SankeyModel
  middle_index : Nat
  savings_index : Option Nat
  deficit_index : Option Nat
deriving DecidableEq, Repr

/-- Embeds `build_sankey_model` (lines 189-314): group each side at its
focus depth, intern the left nodes, the middle node, the right nodes and
the optional savings (positive difference) and deficit (negative
difference, when allowed) nodes, then emit one link per incoming group
into the middle, one per outgoing group out of the middle, and the
optional savings/deficit links. -/
def build_sankey (view : CashflowView) (state : SankeyState) : SankeyBuild :=
  let incoming := group_items_by_level view.incoming state.left_focus state.left_level_default
  let outgoing := group_items_by_level view.outgoing state.right_focus state.right_level_default
  let incoming_grouped := incoming.1
  let outgoing_grouped := outgoing.1
  let b₀ : NodeBuilder := ⟨[], [], [], []⟩
  let left := add_side_nodes Side.L incoming_grouped b₀ []
  let mid := add_node left.2 MIDDLE_KEY MIDDLE_LABEL Side.M none
  let middle_index := mid.1
  let right := add_side_nodes Side.R outgoing_grouped mid.2 []
  let diff := view.summary.difference
  let sav : Option Nat × NodeBuilder :=
    if 0 < diff then
      let r := add_node right.2 SAVINGS_KEY SAVINGS_LABEL Side.R none
      (some r.1, r.2)
    else (none, right.2)
  let defc : Option Nat × NodeBuilder :=
    if diff < 0 ∧ state.allow_negative_diff then
      let r := add_node sav.2 DEFICIT_KEY DEFICIT_LABEL Side.L none
      (some r.1, r.2)
    else (none, sav.2)
  let b := defc.2
  let links :=
    incoming_grouped.map (fun g =>
      SankeyLink.mk ((dlookup g.1 left.1).getD 0) middle_index g.2.1)
    ++ outgoing_grouped.map (fun g =>
      SankeyLink.mk middle_index ((dlookup g.1 right.1).getD 0) g.2.1)
    ++ (match sav.1 with
        | some i => [SankeyLink.mk middle_index i diff]
        | none => [])
    ++ (match defc.1 with
        | some i => [SankeyLink.mk i middle_index |diff|]
        | none => [])
  { model :=
      { node_labels := b.node_labels,
        node_keys := b.node_keys,
        links := links,
        key_by_index := b.node_keys.enum,
        side_by_key := b.side_by_key,
        root_by_key := b.root_by_key,
        max_depth_left_by_root := incoming.2,
        max_depth_right_by_root := outgoing.2 },
    middle_index := middle_index,
    savings_index := sav.1,
    deficit_index := defc.1 }

/-- Embeds `build_sankey_model` proper: the `SankeyModel` projection of
`build_sankey` (the source returns only the model; the local indices are
kept in `SankeyBuild` for specification purposes). -/
def build_sankey_model (view : CashflowView) (state : SankeyState) : SankeyModel :=
  (build_sankey view state).model

/-- The side-resolved tail of `apply_click` (`sankey_cashflow.py`
lines 413-432): read the root's current depth (side default when unset)
and the root's maximum observed depth for that side (defaulting to the
current depth when absent); at or above the maximum, record the click
and report no change; below it, additionally bump the root's focus depth
by one and report a change. -/
def apply_click_on_side (state : SankeyState) (side : Side) (root : String)
    (max_depth_by_root : List (String × Nat)) : Bool × SankeyState :=
  let focus := if side = Side.L then state.left_focus else state.right_focus
  let default_level :=
    if side = Side.L then state.left_level_default else state.right_level_default
  let current_level := (dlookup root focus).getD default_level
  let max_depth := (dlookup root max_depth_by_root).getD current_level
  if max_depth ≤ current_level then
    (false, { state with
      last_clicked_side := some side, last_clicked_root := some root })
  else if side = Side.L then
    (true, { state with
      left_focus := dinsert state.left_focus root (current_level + 1),
      last_clicked_side := some side, last_clicked_root := some root })
  else
    (true, { state with
      right_focus := dinsert state.right_focus root (current_level + 1),
      last_clicked_side := some side, last_clicked_root := some root })

/-- Embeds `apply_click` (lines 389-433): resolve the clicked node's key,
side and root; any node that is not a truthy-rooted left/right node is a
no-op returning `false` with the state untouched; left/right nodes defer
to `apply_click_on_side` with the side's max-depth map. The mutated
state is returned explicitly. -/
def apply_click (state : SankeyState) (model : SankeyModel) (node_index : Nat) :
    Bool × SankeyState :=
  match dlookup node_index model.key_by_index with
  | none => (false, state)
  | some internal_key =>
      if internal_key = "" then (false, state)
      else
        match dlookup internal_key model.side_by_key,
            (dlookup internal_key model.root_by_key).getD none with
        | some Side.L, some root =>
            if root = "" then (false, state)
            else apply_click_on_side state Side.L root model.max_depth_left_by_root
        | some Side.R, some root =>
            if root = "" then (false, state)
            else apply_click_on_side state Side.R root model.max_depth_right_by_root
        | _, _ => (false, state)

/-- Structural invariant of the incremental node store: distinct keys,
the key list and the side map in sync, and every interned key carrying
its side marker at its start. -/
def NodeBuilderInv (b : NodeBuilder) : Prop :=
  b.node_keys.Nodup
  ∧ (∀ k, k ∈ b.node_keys ↔ (dlookup k b.side_by_key).isSome)
  ∧ (∀ k s, dlookup k b.side_by_key = some s → ∃ r, k = side_pfx s ++ r)

/-- The focus map `apply_click_on_side` reads and writes for a side
(`left_focus` for `L`, otherwise `right_focus`, as in the source). -/
def side_focus (s : SankeyState) (side : Side) : List (String × Nat) :=
  if side = Side.L then s.left_focus else s.right_focus

/-- The per-side default drill depth. -/
def side_default (s : SankeyState) (side : Side) : Nat :=
  if side = Side.L then s.left_level_default else s.right_level_default

/-- The current drill depth of a root: its focus entry, or the side
default when unset. -/
def side_current (s : SankeyState) (side : Side) (root : String) : Nat :=
  (dlookup root (side_focus s side)).getD (side_default s side)

/-- The per-side max-depth map of a model. -/
def side_max_depth (m : SankeyModel) (side : Side) : List (String × Nat) :=
  if side = Side.L then m.max_depth_left_by_root else m.max_depth_right_by_root

/-- The opposite drill side. -/
def other_side (side : Side) : Side := if side = Side.L then Side.R else Side.L

/-! ### Theorems: the dict model -/

@[simp] theorem dlookup_nil {α β : Type} [DecidableEq α] (k : α) :
    dlookup (β := β) k [] = none := rfl

@[simp] theorem dlookup_cons {α β : Type} [DecidableEq α] (k k₁ : α) (v : β)
    (rest : List (α × β)) :
    dlookup k ((k₁, v) :: rest) = if k₁ = k then some v else dlookup k rest := rfl

theorem dlookup_dinsert_self {α β : Type} [DecidableEq α]
    (m : List (α × β)) (k : α) (v : β) :
    dlookup k (dinsert m k v) = some v := by
  induction m with
  | nil => simp [dinsert, dlookup]
  | cons p rest ih =>
      obtain ⟨k₁, v₁⟩ := p
      by_cases h : k₁ = k <;> simp [dinsert, dlookup, h, ih]

theorem dlookup_dinsert_ne {α β : Type} [DecidableEq α]
    (m : List (α × β)) (k k₀ : α) (v : β) (h : k₀ ≠ k) :
    dlookup k₀ (dinsert m k v) = dlookup k₀ m := by
  induction m with
  | nil => simp [dinsert, dlookup, fun hh => h hh.symm ∘ Eq.symm, (Ne.symm h)]
  | cons p rest ih =>
      obtain ⟨k₁, v₁⟩ := p
      by_cases h₁ : k₁ = k
      · subst h₁
        simp [dinsert, dlookup, Ne.symm h]
      · simp [dinsert, dlookup, h₁, ih]

theorem dlookup_eq_none_iff {α β : Type} [DecidableEq α]
    (m : List (α × β)) (k : α) :
    dlookup k m = none ↔ k ∉ dkeys m := by
  induction m with
  | nil => simp [dlookup, dkeys]
  | cons p rest ih =>
      obtain ⟨k₁, v₁⟩ := p
      by_cases h : k₁ = k
      · subst h
        simp [dlookup, dkeys]
      · simp only [dlookup, if_neg h, dkeys, List.map_cons, List.mem_cons, ih]
        constructor
        · rintro hnot (h₂ | h₂)
          · exact h h₂.symm
          · exact hnot h₂
        · intro hnot h₂
          exact hnot (Or.inr h₂)

theorem dkeys_dinsert_of_mem {α β : Type} [DecidableEq α]
    (m : List (α × β)) (k : α) (v : β) (h : (dlookup k m).isSome) :
    dkeys (dinsert m k v) = dkeys m := by
  induction m with
  | nil => simp [dlookup] at h
  | cons p rest ih =>
      obtain ⟨k₁, v₁⟩ := p
      by_cases h₁ : k₁ = k
      · simp [dinsert, dkeys, h₁]
      · simp only [dlookup, if_neg h₁] at h
        simp only [dinsert, if_neg h₁, dkeys, List.map_cons]
        have h₂ := ih h
        simp only [dkeys] at h₂
        rw [h₂]

theorem dkeys_dinsert_of_not_mem {α β : Type} [DecidableEq α]
    (m : List (α × β)) (k : α) (v : β) (h : dlookup k m = none) :
    dkeys (dinsert m k v) = dkeys m ++ [k] := by
  induction m with
  | nil => simp [dinsert, dkeys]
  | cons p rest ih =>
      obtain ⟨k₁, v₁⟩ := p
      by_cases h₁ : k₁ = k
      · simp [dlookup, h₁] at h
      · simp only [dlookup, if_neg h₁] at h
        simp only [dinsert, if_neg h₁, dkeys, List.map_cons, List.cons_append,
          List.cons.injEq, true_and]
        have h₂ := ih h
        simp only [dkeys] at h₂
        exact h₂

theorem dlookup_dpop_ne {α β : Type} [DecidableEq α]
    (m : List (α × β)) (k k₀ : α) (h : k₀ ≠ k) :
    dlookup k₀ (dpop m k) = dlookup k₀ m := by
  induction m with
  | nil => simp [dpop]
  | cons p rest ih =>
      obtain ⟨k₁, v₁⟩ := p
      by_cases h₁ : k₁ = k
      · subst h₁
        simp [dpop, dlookup, Ne.symm h]
      · simp [dpop, dlookup, h₁, ih]

theorem dlookup_dpop_self {α β : Type} [DecidableEq α]
    (m : List (α × β)) (k : α) (h : (dkeys m).Nodup) :
    dlookup k (dpop m k) = none := by
  induction m with
  | nil => simp [dpop, dlookup]
  | cons p rest ih =>
      obtain ⟨k₁, v₁⟩ := p
      simp only [dkeys, List.map_cons, List.nodup_cons] at h
      by_cases h₁ : k₁ = k
      · subst h₁
        simp only [dpop, if_pos rfl]
        rw [dlookup_eq_none_iff]
        simpa [dkeys] using h.1
      · simp only [dpop, if_neg h₁, dlookup, if_neg h₁]
        exact ih h.2


/-! ### Theorems: price map construction (C9) -/

theorem dlookup_price_map_loop (rows : List PriceRow) (rates : List (String × ℚ))
    (g : String) :
    dlookup g (price_map_loop rates rows)
      = (dlookup g rates).or ((first_valid_price_row g rows).map price_row_rate) := by
  induction rows generalizing rates with
  | nil => simp [price_map_loop, first_valid_price_row]
  | cons row rest ih =>
      by_cases h₁ : (dlookup row.commodity_guid rates).isSome
      · rw [price_map_loop]
        simp only [h₁, if_true, ih]
        by_cases hg : row.commodity_guid = g
        · subst hg
          obtain ⟨v, hv⟩ := Option.isSome_iff_exists.mp h₁
          simp [hv, Option.or]
        · simp [first_valid_price_row, hg]
      · have h₁n : dlookup row.commodity_guid rates = none := by
          cases h : dlookup row.commodity_guid rates with
          | none => rfl
          | some v => rw [h] at h₁; simp at h₁
        by_cases h₂ : coerce_decimal row.value_denom = 0
        · rw [price_map_loop]
          simp only [h₁, if_false, h₂, if_true, Bool.false_eq_true, ih]
          have : ¬(row.commodity_guid = g ∧ coerce_decimal row.value_denom ≠ 0) := by
            rintro ⟨_, hne⟩; exact hne h₂
          simp [first_valid_price_row, this]
        · rw [price_map_loop]
          simp only [h₁, if_false, h₂, if_false, Bool.false_eq_true, ih]
          by_cases hg : row.commodity_guid = g
          · subst hg
            rw [dlookup_dinsert_self, h₁n]
            have : row.commodity_guid = row.commodity_guid ∧
                coerce_decimal row.value_denom ≠ 0 := ⟨rfl, h₂⟩
            simp [first_valid_price_row, this, Option.or, price_row_rate]
          · rw [dlookup_dinsert_ne _ _ _ _ (fun hh => hg hh.symm)]
            have : ¬(row.commodity_guid = g ∧ coerce_decimal row.value_denom ≠ 0) := by
              rintro ⟨hh, _⟩; exact hg hh
            simp [first_valid_price_row, this]

theorem price_map_loop_keys_nodup (rows : List PriceRow) (rates : List (String × ℚ))
    (h : (dkeys rates).Nodup) :
    (dkeys (price_map_loop rates rows)).Nodup := by
  induction rows generalizing rates with
  | nil => simpa [price_map_loop] using h
  | cons row rest ih =>
      by_cases h₁ : (dlookup row.commodity_guid rates).isSome
      · rw [price_map_loop]; simp only [h₁, if_true]; exact ih rates h
      · have h₁n : dlookup row.commodity_guid rates = none := by
          cases hh : dlookup row.commodity_guid rates with
          | none => rfl
          | some v => rw [hh] at h₁; simp at h₁
        by_cases h₂ : coerce_decimal row.value_denom = 0
        · rw [price_map_loop]
          simp only [h₁, if_false, h₂, if_true, Bool.false_eq_true]
          exact ih rates h
        · rw [price_map_loop]
          simp only [h₁, if_false, h₂, if_false, Bool.false_eq_true]
          apply ih
          rw [dkeys_dinsert_of_not_mem _ _ _ h₁n]
          rw [List.nodup_append]
          refine ⟨h, List.nodup_singleton _, ?_⟩
          intro a ha hb
          simp at hb
          subst hb
          exact (dlookup_eq_none_iff rates row.commodity_guid).mp h₁n ha

/-- C9. The price-map construction keeps, for each commodity, exactly the
first row whose denominator coerces to a nonzero value (with rate
numerator/denominator), which means zero-denominator rows are skipped
and every later row for an already-rated commodity is ignored whatever
its values; and the resulting map holds at most one rate per commodity. -/
theorem build_price_map_first_valid (rows : List PriceRow) (g : String) :
    dlookup g (build_price_map rows)
        = (first_valid_price_row g rows).map price_row_rate
      ∧ (dkeys (build_price_map rows)).Nodup := by
  constructor
  · rw [build_price_map, dlookup_price_map_loop]
    simp [Option.or]
  · exact price_map_loop_keys_nodup rows [] (by simp [dkeys])

/-! ### Theorems: net worth (C2, C5, C10) -/

theorem net_worth_loop_liability_mono (rows : List NetWorthBalanceRow)
    (aT lT : List String) (tg tc : String) (prices : List (String × ℚ))
    (a l : ℚ) :
    l ≤ (net_worth_loop aT lT tg tc prices a l rows).2 := by
  induction rows generalizing a l with
  | nil => simp [net_worth_loop]
  | cons row rest ih =>
      rw [net_worth_loop]
      by_cases h₁ : row.account_type ∉ aT ∧ row.account_type ∉ lT
      · simpa [h₁] using ih a l
      · simp only [h₁, if_false]
        cases hconv : convert_balance (coerce_decimal row.balance) row.commodity_guid
            row.mnemonic row.namespace_ tg tc prices with
        | none => exact ih a l
        | some c =>
            by_cases h₂ : row.account_type ∈ aT
            · simpa [h₂] using ih (a + c) l
            · simp only [h₂, if_false]
              calc l ≤ l + |c| := le_add_of_nonneg_right (abs_nonneg c)
                _ ≤ (net_worth_loop aT lT tg tc prices a (l + |c|) rest).2 := ih a (l + |c|)

/-- C2 (counterexample): on a single asset-typed balance row already in
the target currency whose balance is `-10`, the computed `asset_total`
is `-10`, i.e. negative — the claim that `asset_total` is non-negative
for every input fails. -/
theorem net_worth_asset_total_negative_cex :
    (execute_net_worth DEFAULT_ASSET_TYPES DEFAULT_LIABILITY_TYPES "EURGUID" "EUR"
        [⟨"ASSET", "EURGUID", "EUR", "CURRENCY", some (-10)⟩] []).asset_total = -10
      ∧ ¬ (0:ℚ) ≤ (execute_net_worth DEFAULT_ASSET_TYPES DEFAULT_LIABILITY_TYPES
        "EURGUID" "EUR"
        [⟨"ASSET", "EURGUID", "EUR", "CURRENCY", some (-10)⟩] []).asset_total := by
  have h : (execute_net_worth DEFAULT_ASSET_TYPES DEFAULT_LIABILITY_TYPES "EURGUID" "EUR"
      [⟨"ASSET", "EURGUID", "EUR", "CURRENCY", some (-10)⟩] []).asset_total = -10 := by
    have hA : ¬("EURGUID" = "" ∨ "EUR" = "") := by decide
    have hB : ¬(str_to_upper "CURRENCY" = "TEMPLATE" ∨ str_to_lower "EUR" = "template") := by
      decide
    simp only [execute_net_worth, build_price_map, price_map_loop, net_worth_loop,
      convert_balance, coerce_decimal, DEFAULT_ASSET_TYPES, DEFAULT_LIABILITY_TYPES]
    norm_num [hA, hB]
  refine ⟨h, ?_⟩
  rw [h]
  norm_num

/-- C2 (amended). For every input, the computed `liability_total` is
non-negative (liabilities accumulate as absolute values); `asset_total`
accumulates converted asset balances as-is and may be negative, as may
`net_worth`. -/
theorem net_worth_liability_total_nonneg (aT lT : List String) (tg tc : String)
    (balances : List NetWorthBalanceRow) (price_rows : List PriceRow) :
    0 ≤ (execute_net_worth aT lT tg tc balances price_rows).liability_total := by
  unfold execute_net_worth
  exact net_worth_loop_liability_mono balances aT lT tg tc (build_price_map price_rows) 0 0

theorem str_to_upper_currency_eval : str_to_upper "CURRENCY" = "CURRENCY" := by decide

theorem str_to_lower_usd_eval : str_to_lower "USD" = "usd" := by decide

theorem str_to_lower_eur_eval : str_to_lower "EUR" = "eur" := by decide

/-- C5. In the net-worth loop: rows typed in neither set contribute
nothing; rows whose conversion fails contribute nothing; a converted
asset balance is added to the asset total as-is; a converted liability
balance is added to the liability total as its absolute value;
`net_worth` is `asset_total - liability_total`; and on the balances
`[ASSET/USD 100 @ rate 9/10, LIABILITY/EUR -40.25]` converted to EUR the
totals are `90`, `40.25` and `49.75`. -/
theorem net_worth_execute_spec (aT lT : List String) (tg tc : String)
    (prices : List (String × ℚ)) (row : NetWorthBalanceRow)
    (rest : List NetWorthBalanceRow) (a l : ℚ) :
    (row.account_type ∉ aT ∧ row.account_type ∉ lT →
      net_worth_loop aT lT tg tc prices a l (row :: rest)
        = net_worth_loop aT lT tg tc prices a l rest)
    ∧ (convert_balance (coerce_decimal row.balance) row.commodity_guid row.mnemonic
          row.namespace_ tg tc prices = none →
      net_worth_loop aT lT tg tc prices a l (row :: rest)
        = net_worth_loop aT lT tg tc prices a l rest)
    ∧ (∀ c, row.account_type ∈ aT →
      convert_balance (coerce_decimal row.balance) row.commodity_guid row.mnemonic
          row.namespace_ tg tc prices = some c →
      net_worth_loop aT lT tg tc prices a l (row :: rest)
        = net_worth_loop aT lT tg tc prices (a + c) l rest)
    ∧ (∀ c, row.account_type ∈ lT →
      convert_balance (coerce_decimal row.balance) row.commodity_guid row.mnemonic
          row.namespace_ tg tc prices = some c →
      row.account_type ∉ aT →
      net_worth_loop aT lT tg tc prices a l (row :: rest)
        = net_worth_loop aT lT tg tc prices a (l + |c|) rest)
    ∧ (∀ balances price_rows,
      (execute_net_worth aT lT tg tc balances price_rows).net_worth
        = (execute_net_worth aT lT tg tc balances price_rows).asset_total
          - (execute_net_worth aT lT tg tc balances price_rows).liability_total)
    ∧ execute_net_worth DEFAULT_ASSET_TYPES DEFAULT_LIABILITY_TYPES "EURGUID" "EUR"
        [⟨"ASSET", "USDGUID", "USD", "CURRENCY", some 100⟩,
         ⟨"LIABILITY", "EURGUID", "EUR", "CURRENCY", some (-(161/4 : ℚ))⟩]
        [⟨"USDGUID", some 9, some 10⟩]
        = ⟨90, 161/4, 199/4, "EUR"⟩ := by
  refine ⟨?_, ?_, ?_, ?_, ?_, ?_⟩
  · rintro ⟨h₁, h₂⟩
    rw [net_worth_loop, if_pos ⟨h₁, h₂⟩]
  · intro hconv
    rw [net_worth_loop]
    by_cases h₁ : row.account_type ∉ aT ∧ row.account_type ∉ lT
    · rw [if_pos h₁]
    · rw [if_neg h₁, hconv]
  · intro c hmem hconv
    have h₁ : ¬(row.account_type ∉ aT ∧ row.account_type ∉ lT) := by
      rintro ⟨h, _⟩; exact h hmem
    rw [net_worth_loop, if_neg h₁, hconv]
    simp [hmem]
  · intro c hmem hconv hnot
    have h₁ : ¬(row.account_type ∉ aT ∧ row.account_type ∉ lT) := by
      rintro ⟨_, h⟩; exact h hmem
    rw [net_worth_loop, if_neg h₁, hconv]
    simp [hnot]
  · intro balances price_rows
    rfl
  · have hc1 : ¬("USDGUID" = "" ∨ "USD" = "") := by decide
    have hc2 : ¬("CURRENCY" = "TEMPLATE" ∨ "usd" = "template") := by decide
    have hc3 : ¬("USDGUID" = "EURGUID" ∨ "USD" = "EUR") := by decide
    have hc4 : ¬("EURGUID" = "" ∨ "EUR" = "") := by decide
    have hc5 : ¬("CURRENCY" = "TEMPLATE" ∨ "eur" = "template") := by decide
    have hc6 : ¬("LIABILITY" = "ASSET" ∨ "LIABILITY" = "BANK" ∨ "LIABILITY" = "CASH" ∨
        "LIABILITY" = "STOCK" ∨ "LIABILITY" = "MUTUAL" ∨ "LIABILITY" = "RECEIVABLE") := by
      decide
    simp only [execute_net_worth, build_price_map, price_map_loop, net_worth_loop,
      convert_balance, coerce_decimal, DEFAULT_ASSET_TYPES, DEFAULT_LIABILITY_TYPES,
      dlookup, str_to_upper_currency_eval, str_to_lower_usd_eval, str_to_lower_eur_eval]
    norm_num [hc1, hc2, hc3, hc4, hc5, hc6, NetWorthSummary.mk.injEq]
    rw [abs_of_nonneg (by norm_num : (0:ℚ) ≤ 161 / 4)]
    norm_num

/-- Witness for C5: the skip clause applied at a concrete EQUITY row,
whose type is in neither default set. -/
theorem net_worth_execute_spec_witness :
    ("EQUITY" ∉ DEFAULT_ASSET_TYPES ∧ "EQUITY" ∉ DEFAULT_LIABILITY_TYPES)
    ∧ net_worth_loop DEFAULT_ASSET_TYPES DEFAULT_LIABILITY_TYPES "EURGUID" "EUR" [] 0 0
        [⟨"EQUITY", "G", "EUR", "CURRENCY", some 5⟩]
      = net_worth_loop DEFAULT_ASSET_TYPES DEFAULT_LIABILITY_TYPES "EURGUID" "EUR" [] 0 0 [] :=
  ⟨by decide,
    (net_worth_execute_spec DEFAULT_ASSET_TYPES DEFAULT_LIABILITY_TYPES "EURGUID" "EUR" []
      ⟨"EQUITY", "G", "EUR", "CURRENCY", some 5⟩ [] 0 0).1 (by decide)⟩

theorem compute_net_worth_loop_totals (aT lT : List String) (cg tc : String)
    (pm : List (String × ℚ)) (rows : List NetWorthBalanceRow) (a l : ℚ)
    (ws : List BalanceSignWarning) :
    ((compute_net_worth_loop aT lT cg tc pm a l ws rows).1,
      (compute_net_worth_loop aT lT cg tc pm a l ws rows).2.1)
      = net_worth_loop aT lT cg tc pm a l (rows.map normalize_balance_row) := by
  induction rows generalizing a l ws with
  | nil => simp [compute_net_worth_loop, net_worth_loop]
  | cons row rest ih =>
      by_cases h₁ : row.account_type ∉ aT ∧ row.account_type ∉ lT
      · have h₁n : (normalize_balance_row row).account_type ∉ aT ∧
            (normalize_balance_row row).account_type ∉ lT := h₁
        simp only [List.map_cons, compute_net_worth_loop, net_worth_loop,
          if_pos h₁, if_pos h₁n]
        exact ih a l ws
      · have h₁n : ¬((normalize_balance_row row).account_type ∉ aT ∧
            (normalize_balance_row row).account_type ∉ lT) := h₁
        have hnb : (normalize_balance_row row).balance = row.balance := rfl
        have hng : (normalize_balance_row row).commodity_guid = row.commodity_guid := rfl
        have hnm : (normalize_balance_row row).mnemonic
          = normalize_mnemonic row.mnemonic := rfl
        have hnn : (normalize_balance_row row).namespace_
          = normalize_namespace row.namespace_ := rfl
        cases hconv : convert_balance (coerce_decimal row.balance) row.commodity_guid
            (normalize_mnemonic row.mnemonic) (normalize_namespace row.namespace_)
            cg tc pm with
        | none =>
            simp only [List.map_cons, compute_net_worth_loop, net_worth_loop,
              if_neg h₁, if_neg h₁n, hnb, hng, hnm, hnn, hconv]
            exact ih a l _
        | some c =>
            by_cases h₂ : row.account_type ∈ aT
            · have h₂n : (normalize_balance_row row).account_type ∈ aT := h₂
              simp only [List.map_cons, compute_net_worth_loop, net_worth_loop,
                if_neg h₁, if_neg h₁n, hnb, hng, hnm, hnn, hconv, if_pos h₂, if_pos h₂n]
              exact ih (a + c) l _
            · have h₂n : (normalize_balance_row row).account_type ∉ aT := h₂
              simp only [List.map_cons, compute_net_worth_loop, net_worth_loop,
                if_neg h₁, if_neg h₁n, hnb, hng, hnm, hnn, hconv, if_neg h₂, if_neg h₂n]
              exact ih a (l + |c|) _

theorem compute_net_worth_loop_warnings_mono (aT lT : List String) (cg tc : String)
    (pm : List (String × ℚ)) (rows : List NetWorthBalanceRow) (a l : ℚ)
    (ws : List BalanceSignWarning) (w : BalanceSignWarning) (h : w ∈ ws) :
    w ∈ (compute_net_worth_loop aT lT cg tc pm a l ws rows).2.2 := by
  induction rows generalizing a l ws with
  | nil => simpa [compute_net_worth_loop] using h
  | cons row rest ih =>
      by_cases h₁ : row.account_type ∉ aT ∧ row.account_type ∉ lT
      · simp only [compute_net_worth_loop, if_pos h₁]
        exact ih a l ws h
      · have hmem : w ∈ ws ++ validate_balance_sign row.account_type
            (coerce_decimal row.balance) aT lT := List.mem_append.mpr (Or.inl h)
        cases hconv : convert_balance (coerce_decimal row.balance) row.commodity_guid
            (normalize_mnemonic row.mnemonic) (normalize_namespace row.namespace_)
            cg tc pm with
        | none =>
            simp only [compute_net_worth_loop, if_neg h₁, hconv]
            exact ih a l _ hmem
        | some c =>
            by_cases h₂ : row.account_type ∈ aT
            · simp only [compute_net_worth_loop, if_neg h₁, hconv, if_pos h₂]
              exact ih (a + c) l _ hmem
            · simp only [compute_net_worth_loop, if_neg h₁, hconv, if_neg h₂]
              exact ih a (l + |c|) _ hmem

theorem compute_net_worth_loop_warns (aT lT : List String) (cg tc : String)
    (pm : List (String × ℚ)) (rows : List NetWorthBalanceRow) (a l : ℚ)
    (ws : List BalanceSignWarning) (row : NetWorthBalanceRow) (hrow : row ∈ rows)
    (w : BalanceSignWarning)
    (hw : w ∈ validate_balance_sign row.account_type (coerce_decimal row.balance) aT lT)
    (hincl : ¬(row.account_type ∉ aT ∧ row.account_type ∉ lT)) :
    w ∈ (compute_net_worth_loop aT lT cg tc pm a l ws rows).2.2 := by
  induction rows generalizing a l ws with
  | nil => cases hrow
  | cons first rest ih =>
      rcases List.mem_cons.mp hrow with hfirst | hrest
      · subst hfirst
        have hmem : w ∈ ws ++ validate_balance_sign row.account_type
            (coerce_decimal row.balance) aT lT := List.mem_append.mpr (Or.inr hw)
        cases hconv : convert_balance (coerce_decimal row.balance) row.commodity_guid
            (normalize_mnemonic row.mnemonic) (normalize_namespace row.namespace_)
            cg tc pm with
        | none =>
            simp only [compute_net_worth_loop, if_neg hincl, hconv]
            exact compute_net_worth_loop_warnings_mono aT lT cg tc pm rest a l _ w hmem
        | some c =>
            by_cases h₂ : row.account_type ∈ aT
            · simp only [compute_net_worth_loop, if_neg hincl, hconv, if_pos h₂]
              exact compute_net_worth_loop_warnings_mono aT lT cg tc pm rest (a + c) l _ w hmem
            · simp only [compute_net_worth_loop, if_neg hincl, hconv, if_neg h₂]
              exact compute_net_worth_loop_warnings_mono aT lT cg tc pm rest a (l + |c|) _ w hmem
      · by_cases h₁ : first.account_type ∉ aT ∧ first.account_type ∉ lT
        · simp only [compute_net_worth_loop, if_pos h₁]
          exact ih a l ws hrest
        · cases hconv : convert_balance (coerce_decimal first.balance) first.commodity_guid
              (normalize_mnemonic first.mnemonic) (normalize_namespace first.namespace_)
              cg tc pm with
          | none =>
              simp only [compute_net_worth_loop, if_neg h₁, hconv]
              exact ih a l _ hrest
          | some c =>
              by_cases h₂ : first.account_type ∈ aT
              · simp only [compute_net_worth_loop, if_neg h₁, hconv, if_pos h₂]
                exact ih (a + c) l _ hrest
              · simp only [compute_net_worth_loop, if_neg h₁, hconv, if_neg h₂]
                exact ih a (l + |c|) _ hrest

/-- C10. In `compute_net_worth_summary`, sign-convention violations are
warned about but never rejected: the asset/liability totals coincide
with the validation-free use-case loop run on the (normalized) rows, so
a violating row contributes exactly like a conforming one; and every
included asset-typed row with a negative balance, and every included
liability-typed row with a positive balance, leaves its warning in the
emitted diagnostics. -/
theorem compute_net_worth_summary_spec (balances : List NetWorthBalanceRow)
    (prices : List PriceRow) (aT lT : List String) (cg tc : String) :
    (((compute_net_worth_summary balances prices aT lT cg tc).1.asset_total,
        (compute_net_worth_summary balances prices aT lT cg tc).1.liability_total)
      = net_worth_loop aT lT cg tc (build_price_map prices) 0 0
          (balances.map normalize_balance_row))
    ∧ (∀ row ∈ balances, row.account_type ∈ aT → coerce_decimal row.balance < 0 →
        BalanceSignWarning.asset_negative row.account_type (coerce_decimal row.balance)
          ∈ (compute_net_worth_summary balances prices aT lT cg tc).2)
    ∧ (∀ row ∈ balances, row.account_type ∈ lT → 0 < coerce_decimal row.balance →
        BalanceSignWarning.liability_positive row.account_type (coerce_decimal row.balance)
          ∈ (compute_net_worth_summary balances prices aT lT cg tc).2) := by
  refine ⟨?_, ?_, ?_⟩
  · exact compute_net_worth_loop_totals aT lT cg tc (build_price_map prices) balances 0 0 []
  · intro row hrow hmem hneg
    apply compute_net_worth_loop_warns aT lT cg tc (build_price_map prices) balances 0 0 []
      row hrow
    · rw [validate_balance_sign, if_pos ⟨hmem, hneg⟩]
      exact List.mem_append.mpr (Or.inl (List.mem_singleton.mpr rfl))
    · rintro ⟨h, _⟩; exact h hmem
  · intro row hrow hmem hpos
    apply compute_net_worth_loop_warns aT lT cg tc (build_price_map prices) balances 0 0 []
      row hrow
    · rw [validate_balance_sign]
      refine List.mem_append.mpr (Or.inr ?_)
      rw [if_pos ⟨hmem, hpos⟩]
      exact List.mem_singleton.mpr rfl
    · rintro ⟨_, h⟩; exact h hmem

/-- Witness for C10: a single asset-typed row with balance `-5` yields
the corresponding warning among the emitted diagnostics. -/
theorem compute_net_worth_summary_spec_witness :
    BalanceSignWarning.asset_negative "ASSET" (-5)
      ∈ (compute_net_worth_summary [⟨"ASSET", "EURGUID", "EUR", "CURRENCY", some (-5)⟩]
          [] ["ASSET"] ["LIABILITY"] "EURGUID" "EUR").2 := by
  have h := (compute_net_worth_summary_spec
    [⟨"ASSET", "EURGUID", "EUR", "CURRENCY", some (-5)⟩] [] ["ASSET"] ["LIABILITY"]
    "EURGUID" "EUR").2.1
    ⟨"ASSET", "EURGUID", "EUR", "CURRENCY", some (-5)⟩ (by decide) (by decide)
    (by norm_num [coerce_decimal])
  simpa [coerce_decimal] using h

/-! ### Theorems: cashflow aggregation (C7) -/

theorem cashflow_phase1_append (acc : CashflowAcc) (xs ys : List CashflowRow) :
    cashflow_phase1 acc (xs ++ ys) = cashflow_phase1 (cashflow_phase1 acc xs) ys := by
  induction xs generalizing acc with
  | nil => simp [cashflow_phase1]
  | cons row rest ih =>
      rw [List.cons_append, cashflow_phase1, cashflow_phase1]
      by_cases h : coerce_decimal row.amount = 0
      · simp only [if_pos h]
        exact ih acc
      · simp only [if_neg h]
        by_cases h₂ : (0:ℚ) < coerce_decimal row.amount
        · simp only [if_pos h₂]
          cases dlookup row.account_guid (if (dlookup row.account_guid acc.metadata).isSome
              then acc else { acc with metadata := (dinsert acc.metadata row.account_guid
                (row.account_full_name, row.top_parent_name)) }).incoming_totals <;>
            apply ih
        · simp only [if_neg h₂]
          cases dlookup row.account_guid (if (dlookup row.account_guid acc.metadata).isSome
              then acc else { acc with metadata := (dinsert acc.metadata row.account_guid
                (row.account_full_name, row.top_parent_name)) }).outgoing_totals <;>
            apply ih

theorem cashflow_phase2_decompose (totals : List (String × ℚ))
    (metadata : List (String × (String × Option String))) (order : List String)
    (items : List CashflowItem) (total : ℚ) :
    (cashflow_phase2 totals metadata items total order).1
        = items ++ (cashflow_phase2 totals metadata [] 0 order).1
      ∧ (cashflow_phase2 totals metadata items total order).2
        = total + (cashflow_phase2 totals metadata [] 0 order).2 := by
  induction order generalizing items total with
  | nil => simp [cashflow_phase2]
  | cons guid rest ih =>
      by_cases h : (dlookup guid totals).getD 0 = 0
      · simp only [cashflow_phase2, if_pos h]
        exact ih items total
      · simp only [cashflow_phase2, if_neg h, List.nil_append]
        obtain ⟨ha, hb⟩ := ih (items ++ [⟨((dlookup guid metadata).getD ("", none)).1,
          (dlookup guid totals).getD 0, ((dlookup guid metadata).getD ("", none)).2⟩])
          (total + (dlookup guid totals).getD 0)
        obtain ⟨hc, hd⟩ := ih [⟨((dlookup guid metadata).getD ("", none)).1,
          (dlookup guid totals).getD 0, ((dlookup guid metadata).getD ("", none)).2⟩]
          (0 + (dlookup guid totals).getD 0)
        constructor
        · rw [ha, hc, List.append_assoc]
        · rw [hb, hd]
          ring

theorem cashflow_phase2_total_eq_sum (totals : List (String × ℚ))
    (metadata : List (String × (String × Option String))) (order : List String) :
    (cashflow_phase2 totals metadata [] 0 order).2
      = ((cashflow_phase2 totals metadata [] 0 order).1.map CashflowItem.amount).sum := by
  induction order with
  | nil => simp [cashflow_phase2]
  | cons guid rest ih =>
      by_cases h : (dlookup guid totals).getD 0 = 0
      · simp only [cashflow_phase2, if_pos h]
        exact ih
      · simp only [cashflow_phase2, if_neg h, List.nil_append]
        obtain ⟨ha, hb⟩ := cashflow_phase2_decompose totals metadata rest
          [⟨((dlookup guid metadata).getD ("", none)).1, (dlookup guid totals).getD 0,
            ((dlookup guid metadata).getD ("", none)).2⟩] (0 + (dlookup guid totals).getD 0)
        rw [ha, hb, ih]
        simp

theorem first_seen_aux_snoc {α : Type} [DecidableEq α] (xs : List α) (seen : List α)
    (x : α) :
    first_seen_aux seen (xs ++ [x])
      = first_seen_aux seen xs ++ (if x ∈ seen ∨ x ∈ xs then [] else [x]) := by
  induction xs generalizing seen with
  | nil =>
      by_cases h : x ∈ seen <;> simp [first_seen_aux, h]
  | cons y ys ih =>
      by_cases hy : y ∈ seen
      · rw [List.cons_append, first_seen_aux, if_pos hy, first_seen_aux, if_pos hy, ih]
        by_cases hx : x = y
        · subst hx
          simp [hy]
        · simp only [List.mem_cons]
          by_cases hxs : x ∈ seen <;> by_cases hxy : x ∈ ys <;> simp [hxs, hxy, hx]
      · rw [List.cons_append, first_seen_aux, if_neg hy, first_seen_aux, if_neg hy,
          ih (y :: seen), List.cons_append]
        by_cases hx : x = y
        · subst hx
          simp [hy]
        · simp only [List.mem_cons]
          by_cases hxs : x ∈ seen <;> by_cases hxy : x ∈ ys <;>
            simp [hxs, hxy, hx, fun h => hx h]

theorem first_seen_snoc {α : Type} [DecidableEq α] (xs : List α) (x : α) :
    first_seen (xs ++ [x]) = first_seen xs ++ (if x ∈ xs then [] else [x]) := by
  rw [first_seen, first_seen, first_seen_aux_snoc]
  simp

theorem mem_first_seen_aux {α : Type} [DecidableEq α] (xs : List α) (seen : List α)
    (y : α) :
    y ∈ first_seen_aux seen xs ↔ y ∈ xs ∧ y ∉ seen := by
  induction xs generalizing seen with
  | nil => simp [first_seen_aux]
  | cons x xs ih =>
      by_cases hx : x ∈ seen
      · rw [first_seen_aux, if_pos hx, ih]
        simp only [List.mem_cons]
        constructor
        · rintro ⟨h₁, h₂⟩
          exact ⟨Or.inr h₁, h₂⟩
        · rintro ⟨h₁ | h₁, h₂⟩
          · subst h₁; exact absurd hx h₂
          · exact ⟨h₁, h₂⟩
      · rw [first_seen_aux, if_neg hx]
        simp only [List.mem_cons, ih (x :: seen), List.mem_cons]
        by_cases hyx : y = x
        · subst hyx
          simp [hx]
        · simp [hyx]

theorem mem_first_seen {α : Type} [DecidableEq α] (xs : List α) (y : α) :
    y ∈ first_seen xs ↔ y ∈ xs := by
  rw [first_seen, mem_first_seen_aux]
  simp

theorem incoming_guids_spec_snoc (l : List CashflowRow) (row : CashflowRow) :
    incoming_guids_spec (l ++ [row])
      = if is_pos_row row then
          (if row.account_guid ∈ incoming_guids_spec l then incoming_guids_spec l
            else incoming_guids_spec l ++ [row.account_guid])
        else incoming_guids_spec l := by
  rw [incoming_guids_spec, incoming_guids_spec, List.filter_append]
  by_cases hp : is_pos_row row
  · have hone : List.filter is_pos_row [row] = [row] := by simp [hp]
    rw [if_pos hp, hone, List.map_append, List.map_singleton, first_seen_snoc]
    by_cases hmem : row.account_guid ∈ first_seen ((l.filter is_pos_row).map
        CashflowRow.account_guid)
    · rw [if_pos hmem, if_pos ((mem_first_seen _ _).mp hmem), List.append_nil]
    · rw [if_neg hmem, if_neg (fun h => hmem ((mem_first_seen _ _).mpr h))]
  · have hnone : List.filter is_pos_row [row] = [] := by simp [hp]
    rw [if_neg hp, hnone, List.append_nil]

theorem outgoing_guids_spec_snoc (l : List CashflowRow) (row : CashflowRow) :
    outgoing_guids_spec (l ++ [row])
      = if is_neg_row row then
          (if row.account_guid ∈ outgoing_guids_spec l then outgoing_guids_spec l
            else outgoing_guids_spec l ++ [row.account_guid])
        else outgoing_guids_spec l := by
  rw [outgoing_guids_spec, outgoing_guids_spec, List.filter_append]
  by_cases hp : is_neg_row row
  · have hone : List.filter is_neg_row [row] = [row] := by simp [hp]
    rw [if_pos hp, hone, List.map_append, List.map_singleton, first_seen_snoc]
    by_cases hmem : row.account_guid ∈ first_seen ((l.filter is_neg_row).map
        CashflowRow.account_guid)
    · rw [if_pos hmem, if_pos ((mem_first_seen _ _).mp hmem), List.append_nil]
    · rw [if_neg hmem, if_neg (fun h => hmem ((mem_first_seen _ _).mpr h))]
  · have hnone : List.filter is_neg_row [row] = [] := by simp [hp]
    rw [if_neg hp, hnone, List.append_nil]

theorem sum_pos_spec_snoc (l : List CashflowRow) (row : CashflowRow) (g : String) :
    sum_pos_spec (l ++ [row]) g
      = sum_pos_spec l g + (if row_has_guid g row && is_pos_row row then
          coerce_decimal row.amount else 0) := by
  rw [sum_pos_spec, sum_pos_spec, List.filter_append, List.map_append, List.sum_append]
  by_cases h : row_has_guid g row && is_pos_row row <;> simp [h]

theorem sum_neg_spec_snoc (l : List CashflowRow) (row : CashflowRow) (g : String) :
    sum_neg_spec (l ++ [row]) g
      = sum_neg_spec l g + (if row_has_guid g row && is_neg_row row then
          |coerce_decimal row.amount| else 0) := by
  rw [sum_neg_spec, sum_neg_spec, List.filter_append, List.map_append, List.sum_append]
  by_cases h : row_has_guid g row && is_neg_row row <;> simp [h]

theorem meta_find_snoc (l : List CashflowRow) (row : CashflowRow) (g : String) :
    meta_find (l ++ [row]) g
      = (meta_find l g).or (if row_has_guid g row && is_nonzero_row row then
          some row else none) := by
  rw [meta_find, meta_find, List.find?_append]
  by_cases h : row_has_guid g row && is_nonzero_row row <;>
    simp [List.find?, h]

theorem sum_pos_spec_of_not_mem (l : List CashflowRow) (g : String)
    (h : g ∉ incoming_guids_spec l) : sum_pos_spec l g = 0 := by
  rw [sum_pos_spec]
  have hnil : l.filter (fun r => row_has_guid g r && is_pos_row r) = [] := by
    rw [List.filter_eq_nil_iff]
    intro r hr hpr
    obtain ⟨hg, hp⟩ := Bool.and_eq_true_iff.mp hpr
    apply h
    rw [incoming_guids_spec, mem_first_seen]
    refine List.mem_map.mpr ⟨r, List.mem_filter.mpr ⟨hr, hp⟩, ?_⟩
    exact of_decide_eq_true hg
  rw [hnil]
  simp

theorem sum_neg_spec_of_not_mem (l : List CashflowRow) (g : String)
    (h : g ∉ outgoing_guids_spec l) : sum_neg_spec l g = 0 := by
  rw [sum_neg_spec]
  have hnil : l.filter (fun r => row_has_guid g r && is_neg_row r) = [] := by
    rw [List.filter_eq_nil_iff]
    intro r hr hpr
    obtain ⟨hg, hp⟩ := Bool.and_eq_true_iff.mp hpr
    apply h
    rw [outgoing_guids_spec, mem_first_seen]
    refine List.mem_map.mpr ⟨r, List.mem_filter.mpr ⟨hr, hp⟩, ?_⟩
    exact of_decide_eq_true hg
  rw [hnil]
  simp

theorem sum_pos_spec_pos (l : List CashflowRow) (g : String)
    (h : g ∈ incoming_guids_spec l) : 0 < sum_pos_spec l g := by
  rw [incoming_guids_spec, mem_first_seen] at h
  obtain ⟨r, hr, hg⟩ := List.mem_map.mp h
  obtain ⟨hrl, hrp⟩ := List.mem_filter.mp hr
  rw [sum_pos_spec]
  apply List.sum_pos
  · intro x hx
    obtain ⟨r₂, hr₂, hx₂⟩ := List.mem_map.mp hx
    obtain ⟨_, hp₂⟩ := Bool.and_eq_true_iff.mp (List.mem_filter.mp hr₂).2
    rw [← hx₂]
    exact of_decide_eq_true hp₂
  · intro heq
    have hmem : coerce_decimal r.amount
        ∈ (l.filter (fun r => row_has_guid g r && is_pos_row r)).map
          (fun r => coerce_decimal r.amount) := by
      refine List.mem_map.mpr ⟨r, List.mem_filter.mpr ⟨hrl, ?_⟩, rfl⟩
      rw [Bool.and_eq_true_iff]
      exact ⟨decide_eq_true hg, hrp⟩
    rw [heq] at hmem
    cases hmem

theorem sum_neg_spec_pos (l : List CashflowRow) (g : String)
    (h : g ∈ outgoing_guids_spec l) : 0 < sum_neg_spec l g := by
  rw [outgoing_guids_spec, mem_first_seen] at h
  obtain ⟨r, hr, hg⟩ := List.mem_map.mp h
  obtain ⟨hrl, hrp⟩ := List.mem_filter.mp hr
  rw [sum_neg_spec]
  apply List.sum_pos
  · intro x hx
    obtain ⟨r₂, hr₂, hx₂⟩ := List.mem_map.mp hx
    obtain ⟨_, hp₂⟩ := Bool.and_eq_true_iff.mp (List.mem_filter.mp hr₂).2
    rw [← hx₂]
    have : coerce_decimal r₂.amount < 0 := of_decide_eq_true hp₂
    exact abs_pos.mpr (ne_of_lt this)
  · intro heq
    have hmem : |coerce_decimal r.amount|
        ∈ (l.filter (fun r => row_has_guid g r && is_neg_row r)).map
          (fun r => |coerce_decimal r.amount|) := by
      refine List.mem_map.mpr ⟨r, List.mem_filter.mpr ⟨hrl, ?_⟩, rfl⟩
      rw [Bool.and_eq_true_iff]
      exact ⟨decide_eq_true hg, hrp⟩
    rw [heq] at hmem
    cases hmem

theorem cashflow_phase1_cons (acc : CashflowAcc) (row : CashflowRow)
    (rest : List CashflowRow) :
    cashflow_phase1 acc (row :: rest) = cashflow_phase1 (cashflow_step acc row) rest := by
  simp only [cashflow_phase1, cashflow_step, cashflow_step₁, cashflow_step₂]
  split
  · rfl
  · split <;> split <;> rfl

theorem cashflow_step₁_incoming_order (acc : CashflowAcc) (row : CashflowRow) :
    (cashflow_step₁ acc row).incoming_order = acc.incoming_order := by
  simp only [cashflow_step₁]
  split <;> rfl

theorem cashflow_step₁_outgoing_order (acc : CashflowAcc) (row : CashflowRow) :
    (cashflow_step₁ acc row).outgoing_order = acc.outgoing_order := by
  simp only [cashflow_step₁]
  split <;> rfl

theorem cashflow_step₁_incoming_totals (acc : CashflowAcc) (row : CashflowRow) :
    (cashflow_step₁ acc row).incoming_totals = acc.incoming_totals := by
  simp only [cashflow_step₁]
  split <;> rfl

theorem cashflow_step₁_outgoing_totals (acc : CashflowAcc) (row : CashflowRow) :
    (cashflow_step₁ acc row).outgoing_totals = acc.outgoing_totals := by
  simp only [cashflow_step₁]
  split <;> rfl

theorem cashflow_step₂_metadata (acc₁ : CashflowAcc) (row : CashflowRow) :
    (cashflow_step₂ acc₁ row).metadata = acc₁.metadata := by
  simp only [cashflow_step₂]
  split
  · split <;> rfl
  · split <;> rfl

theorem cashflow_step₁_metadata_spec (l : List CashflowRow) (row : CashflowRow)
    (acc : CashflowAcc) (hbz : is_nonzero_row row = true)
    (h5 : ∀ g, dlookup g acc.metadata
        = (meta_find l g).map (fun r => (r.account_full_name, r.top_parent_name))) :
    ∀ g, dlookup g (cashflow_step₁ acc row).metadata
        = (meta_find (l ++ [row]) g).map
          (fun r => (r.account_full_name, r.top_parent_name)) := by
  intro g
  rw [meta_find_snoc]
  by_cases hm : (dlookup row.account_guid acc.metadata).isSome
  · have hstep : cashflow_step₁ acc row = acc := by
      simp only [cashflow_step₁, if_pos hm]
    rw [hstep]
    by_cases hg : row.account_guid = g
    · subst hg
      have h := h5 row.account_guid
      cases hv : meta_find l row.account_guid with
      | none =>
          rw [hv] at h
          rw [h] at hm
          simp at hm
      | some r =>
          rw [hv] at h
          simpa [Option.or] using h
    · have hbg : row_has_guid g row = false := by
        simp [row_has_guid, hg]
      rw [hbg]
      simp only [Bool.false_and, Bool.false_eq_true, if_false, Option.or_none]
      exact h5 g
  · have hstep : cashflow_step₁ acc row = { acc with
        metadata := (dinsert acc.metadata row.account_guid
          (row.account_full_name, row.top_parent_name)) } := by
      simp only [cashflow_step₁, if_neg hm]
    rw [hstep]
    by_cases hg : row.account_guid = g
    · subst hg
      have hnone : dlookup row.account_guid acc.metadata = none := by
        cases hv : dlookup row.account_guid acc.metadata with
        | none => rfl
        | some v =>
            rw [hv] at hm
            simp at hm
      have hfind : meta_find l row.account_guid = none := by
        have h := h5 row.account_guid
        rw [hnone] at h
        cases hv : meta_find l row.account_guid with
        | none => rfl
        | some r =>
            rw [hv] at h
            cases h
      have hbg : row_has_guid row.account_guid row = true := by
        simp [row_has_guid]
      rw [hfind, hbg, hbz]
      simp [dlookup_dinsert_self]
    · have hbg : row_has_guid g row = false := by
        simp [row_has_guid, hg]
      have hgg : g ≠ row.account_guid := fun hh => hg hh.symm
      rw [hbg]
      simp only [Bool.false_and, Bool.false_eq_true, if_false, Option.or_none]
      rw [dlookup_dinsert_ne _ _ _ _ hgg]
      exact h5 g

theorem cashflow_step₂_spec (l : List CashflowRow) (row : CashflowRow)
    (acc₁ : CashflowAcc) (hz : coerce_decimal row.amount ≠ 0)
    (g1 : acc₁.incoming_order = incoming_guids_spec l)
    (g2 : acc₁.outgoing_order = outgoing_guids_spec l)
    (g3 : ∀ g, dlookup g acc₁.incoming_totals
        = if g ∈ incoming_guids_spec l then some (sum_pos_spec l g) else none)
    (g4 : ∀ g, dlookup g acc₁.outgoing_totals
        = if g ∈ outgoing_guids_spec l then some (sum_neg_spec l g) else none) :
    (cashflow_step₂ acc₁ row).incoming_order = incoming_guids_spec (l ++ [row])
    ∧ (cashflow_step₂ acc₁ row).outgoing_order = outgoing_guids_spec (l ++ [row])
    ∧ (∀ g, dlookup g (cashflow_step₂ acc₁ row).incoming_totals
        = if g ∈ incoming_guids_spec (l ++ [row]) then some (sum_pos_spec (l ++ [row]) g)
          else none)
    ∧ (∀ g, dlookup g (cashflow_step₂ acc₁ row).outgoing_totals
        = if g ∈ outgoing_guids_spec (l ++ [row]) then some (sum_neg_spec (l ++ [row]) g)
          else none) := by
  by_cases hp : 0 < coerce_decimal row.amount
  · have hbp : is_pos_row row = true := by simp [is_pos_row, hp]
    have hbn : is_neg_row row = false := by
      simp only [is_neg_row, decide_eq_false_iff_not, not_lt]
      exact le_of_lt hp
    have hout_guids : outgoing_guids_spec (l ++ [row]) = outgoing_guids_spec l := by
      rw [outgoing_guids_spec_snoc, hbn]
      simp
    have hout_sum : ∀ g, sum_neg_spec (l ++ [row]) g = sum_neg_spec l g := by
      intro g
      rw [sum_neg_spec_snoc]
      simp [hbn]
    cases hlook : dlookup row.account_guid acc₁.incoming_totals with
    | none =>
        have hnotmem : row.account_guid ∉ incoming_guids_spec l := by
          intro hmem
          rw [g3 row.account_guid, if_pos hmem] at hlook
          cases hlook
        have hin_guids : incoming_guids_spec (l ++ [row])
            = incoming_guids_spec l ++ [row.account_guid] := by
          rw [incoming_guids_spec_snoc, hbp]
          simp [hnotmem]
        have hstep : cashflow_step₂ acc₁ row = { acc₁ with
            incoming_order := acc₁.incoming_order ++ [row.account_guid],
            incoming_totals := dinsert acc₁.incoming_totals row.account_guid
              (coerce_decimal row.amount) } := by
          simp only [cashflow_step₂, if_pos hp, hlook]
        rw [hstep]
        refine ⟨?_, ?_, ?_, ?_⟩
        · dsimp only
          rw [hin_guids, g1]
        · dsimp only
          rw [hout_guids]
          exact g2
        · intro g
          dsimp only
          rw [hin_guids]
          by_cases hg : g = row.account_guid
          · subst hg
            have hsum : sum_pos_spec (l ++ [row]) row.account_guid
                = coerce_decimal row.amount := by
              rw [sum_pos_spec_snoc, sum_pos_spec_of_not_mem l row.account_guid hnotmem]
              have hbg : row_has_guid row.account_guid row = true := by
                simp [row_has_guid]
              rw [hbg, hbp]
              simp
            rw [dlookup_dinsert_self, if_pos (by simp), hsum]
          · have hsum : sum_pos_spec (l ++ [row]) g = sum_pos_spec l g := by
              rw [sum_pos_spec_snoc]
              have hbg : row_has_guid g row = false := by
                simp only [row_has_guid, decide_eq_false_iff_not]
                exact fun hh => hg hh.symm
              rw [hbg]
              simp
            have hmem₂ : (g ∈ incoming_guids_spec l ++ [row.account_guid])
                ↔ g ∈ incoming_guids_spec l := by
              simp [hg]
            rw [dlookup_dinsert_ne _ _ _ _ hg, hsum, g3 g]
            by_cases hmem₃ : g ∈ incoming_guids_spec l
            · rw [if_pos hmem₃, if_pos (hmem₂.mpr hmem₃)]
            · rw [if_neg hmem₃, if_neg (fun hh => hmem₃ (hmem₂.mp hh))]
        · intro g
          dsimp only
          rw [hout_guids, hout_sum]
          exact g4 g
    | some t =>
        have hmem : row.account_guid ∈ incoming_guids_spec l := by
          by_cases hmem : row.account_guid ∈ incoming_guids_spec l
          · exact hmem
          · rw [g3 row.account_guid, if_neg hmem] at hlook
            cases hlook
        have ht : t = sum_pos_spec l row.account_guid := by
          have h := g3 row.account_guid
          rw [hlook, if_pos hmem] at h
          exact Option.some.inj h
        have hin_guids : incoming_guids_spec (l ++ [row]) = incoming_guids_spec l := by
          rw [incoming_guids_spec_snoc, hbp]
          simp [hmem]
        have hstep : cashflow_step₂ acc₁ row = { acc₁ with
            incoming_totals := dinsert acc₁.incoming_totals row.account_guid
              (t + coerce_decimal row.amount) } := by
          simp only [cashflow_step₂, if_pos hp, hlook]
        rw [hstep]
        refine ⟨?_, ?_, ?_, ?_⟩
        · dsimp only
          rw [hin_guids]
          exact g1
        · dsimp only
          rw [hout_guids]
          exact g2
        · intro g
          dsimp only
          rw [hin_guids]
          by_cases hg : g = row.account_guid
          · subst hg
            have hsum : sum_pos_spec (l ++ [row]) row.account_guid
                = sum_pos_spec l row.account_guid + coerce_decimal row.amount := by
              rw [sum_pos_spec_snoc]
              have hbg : row_has_guid row.account_guid row = true := by
                simp [row_has_guid]
              rw [hbg, hbp]
              simp
            rw [dlookup_dinsert_self, if_pos hmem, hsum, ht]
          · have hsum : sum_pos_spec (l ++ [row]) g = sum_pos_spec l g := by
              rw [sum_pos_spec_snoc]
              have hbg : row_has_guid g row = false := by
                simp only [row_has_guid, decide_eq_false_iff_not]
                exact fun hh => hg hh.symm
              rw [hbg]
              simp
            rw [dlookup_dinsert_ne _ _ _ _ hg, hsum]
            exact g3 g
        · intro g
          dsimp only
          rw [hout_guids, hout_sum]
          exact g4 g
  · have hn : coerce_decimal row.amount < 0 := lt_of_le_of_ne (not_lt.mp hp) hz
    have hbn : is_neg_row row = true := by simp [is_neg_row, hn]
    have hbp : is_pos_row row = false := by
      simp only [is_pos_row, decide_eq_false_iff_not, not_lt]
      exact le_of_lt hn
    have hin_guids : incoming_guids_spec (l ++ [row]) = incoming_guids_spec l := by
      rw [incoming_guids_spec_snoc, hbp]
      simp
    have hin_sum : ∀ g, sum_pos_spec (l ++ [row]) g = sum_pos_spec l g := by
      intro g
      rw [sum_pos_spec_snoc]
      simp [hbp]
    cases hlook : dlookup row.account_guid acc₁.outgoing_totals with
    | none =>
        have hnotmem : row.account_guid ∉ outgoing_guids_spec l := by
          intro hmem
          rw [g4 row.account_guid, if_pos hmem] at hlook
          cases hlook
        have hout_guids : outgoing_guids_spec (l ++ [row])
            = outgoing_guids_spec l ++ [row.account_guid] := by
          rw [outgoing_guids_spec_snoc, hbn]
          simp [hnotmem]
        have hstep : cashflow_step₂ acc₁ row = { acc₁ with
            outgoing_order := acc₁.outgoing_order ++ [row.account_guid],
            outgoing_totals := dinsert acc₁.outgoing_totals row.account_guid
              |coerce_decimal row.amount| } := by
          simp only [cashflow_step₂, if_neg hp, hlook]
        rw [hstep]
        refine ⟨?_, ?_, ?_, ?_⟩
        · dsimp only
          rw [hin_guids]
          exact g1
        · dsimp only
          rw [hout_guids, g2]
        · intro g
          dsimp only
          rw [hin_guids, hin_sum]
          exact g3 g
        · intro g
          dsimp only
          rw [hout_guids]
          by_cases hg : g = row.account_guid
          · subst hg
            have hsum : sum_neg_spec (l ++ [row]) row.account_guid
                = |coerce_decimal row.amount| := by
              rw [sum_neg_spec_snoc, sum_neg_spec_of_not_mem l row.account_guid hnotmem]
              have hbg : row_has_guid row.account_guid row = true := by
                simp [row_has_guid]
              rw [hbg, hbn]
              simp
            rw [dlookup_dinsert_self, if_pos (by simp), hsum]
          · have hsum : sum_neg_spec (l ++ [row]) g = sum_neg_spec l g := by
              rw [sum_neg_spec_snoc]
              have hbg : row_has_guid g row = false := by
                simp only [row_has_guid, decide_eq_false_iff_not]
                exact fun hh => hg hh.symm
              rw [hbg]
              simp
            have hmem₂ : (g ∈ outgoing_guids_spec l ++ [row.account_guid])
                ↔ g ∈ outgoing_guids_spec l := by
              simp [hg]
            rw [dlookup_dinsert_ne _ _ _ _ hg, hsum, g4 g]
            by_cases hmem₃ : g ∈ outgoing_guids_spec l
            · rw [if_pos hmem₃, if_pos (hmem₂.mpr hmem₃)]
            · rw [if_neg hmem₃, if_neg (fun hh => hmem₃ (hmem₂.mp hh))]
    | some t =>
        have hmem : row.account_guid ∈ outgoing_guids_spec l := by
          by_cases hmem : row.account_guid ∈ outgoing_guids_spec l
          · exact hmem
          · rw [g4 row.account_guid, if_neg hmem] at hlook
            cases hlook
        have ht : t = sum_neg_spec l row.account_guid := by
          have h := g4 row.account_guid
          rw [hlook, if_pos hmem] at h
          exact Option.some.inj h
        have hout_guids : outgoing_guids_spec (l ++ [row]) = outgoing_guids_spec l := by
          rw [outgoing_guids_spec_snoc, hbn]
          simp [hmem]
        have hstep : cashflow_step₂ acc₁ row = { acc₁ with
            outgoing_totals := dinsert acc₁.outgoing_totals row.account_guid
              (t + |coerce_decimal row.amount|) } := by
          simp only [cashflow_step₂, if_neg hp, hlook]
        rw [hstep]
        refine ⟨?_, ?_, ?_, ?_⟩
        · dsimp only
          rw [hin_guids]
          exact g1
        · dsimp only
          rw [hout_guids]
          exact g2
        · intro g
          dsimp only
          rw [hin_guids, hin_sum]
          exact g3 g
        · intro g
          dsimp only
          rw [hout_guids]
          by_cases hg : g = row.account_guid
          · subst hg
            have hsum : sum_neg_spec (l ++ [row]) row.account_guid
                = sum_neg_spec l row.account_guid + |coerce_decimal row.amount| := by
              rw [sum_neg_spec_snoc]
              have hbg : row_has_guid row.account_guid row = true := by
                simp [row_has_guid]
              rw [hbg, hbn]
              simp
            rw [dlookup_dinsert_self, if_pos hmem, hsum, ht]
          · have hsum : sum_neg_spec (l ++ [row]) g = sum_neg_spec l g := by
              rw [sum_neg_spec_snoc]
              have hbg : row_has_guid g row = false := by
                simp only [row_has_guid, decide_eq_false_iff_not]
                exact fun hh => hg hh.symm
              rw [hbg]
              simp
            rw [dlookup_dinsert_ne _ _ _ _ hg, hsum]
            exact g4 g

theorem cashflow_step_spec (l : List CashflowRow) (row : CashflowRow)
    (acc : CashflowAcc)
    (h1 : acc.incoming_order = incoming_guids_spec l)
    (h2 : acc.outgoing_order = outgoing_guids_spec l)
    (h3 : ∀ g, dlookup g acc.incoming_totals
        = if g ∈ incoming_guids_spec l then some (sum_pos_spec l g) else none)
    (h4 : ∀ g, dlookup g acc.outgoing_totals
        = if g ∈ outgoing_guids_spec l then some (sum_neg_spec l g) else none)
    (h5 : ∀ g, dlookup g acc.metadata
        = (meta_find l g).map (fun r => (r.account_full_name, r.top_parent_name))) :
    (cashflow_step acc row).incoming_order = incoming_guids_spec (l ++ [row])
    ∧ (cashflow_step acc row).outgoing_order = outgoing_guids_spec (l ++ [row])
    ∧ (∀ g, dlookup g (cashflow_step acc row).incoming_totals
        = if g ∈ incoming_guids_spec (l ++ [row]) then some (sum_pos_spec (l ++ [row]) g)
          else none)
    ∧ (∀ g, dlookup g (cashflow_step acc row).outgoing_totals
        = if g ∈ outgoing_guids_spec (l ++ [row]) then some (sum_neg_spec (l ++ [row]) g)
          else none)
    ∧ (∀ g, dlookup g (cashflow_step acc row).metadata
        = (meta_find (l ++ [row]) g).map
          (fun r => (r.account_full_name, r.top_parent_name))) := by
  by_cases hz : coerce_decimal row.amount = 0
  · have hstep : cashflow_step acc row = acc := by
      simp only [cashflow_step, if_pos hz]
    have hbp : is_pos_row row = false := by simp [is_pos_row, hz]
    have hbn : is_neg_row row = false := by simp [is_neg_row, hz]
    have hbz : is_nonzero_row row = false := by simp [is_nonzero_row, hz]
    have hin : incoming_guids_spec (l ++ [row]) = incoming_guids_spec l := by
      rw [incoming_guids_spec_snoc, hbp]
      simp
    have hout : outgoing_guids_spec (l ++ [row]) = outgoing_guids_spec l := by
      rw [outgoing_guids_spec_snoc, hbn]
      simp
    have hsp : ∀ g, sum_pos_spec (l ++ [row]) g = sum_pos_spec l g := by
      intro g
      rw [sum_pos_spec_snoc]
      simp [hbp]
    have hsn : ∀ g, sum_neg_spec (l ++ [row]) g = sum_neg_spec l g := by
      intro g
      rw [sum_neg_spec_snoc]
      simp [hbn]
    have hmf : ∀ g, meta_find (l ++ [row]) g = meta_find l g := by
      intro g
      rw [meta_find_snoc]
      simp [hbz]
    rw [hstep]
    exact ⟨by rw [hin]; exact h1, by rw [hout]; exact h2,
      fun g => by rw [hin, hsp g]; exact h3 g,
      fun g => by rw [hout, hsn g]; exact h4 g,
      fun g => by rw [hmf g]; exact h5 g⟩
  · have hbz : is_nonzero_row row = true := by simp [is_nonzero_row, hz]
    have hstep : cashflow_step acc row
        = cashflow_step₂ (cashflow_step₁ acc row) row := by
      simp only [cashflow_step, if_neg hz]
    have h1' : (cashflow_step₁ acc row).incoming_order = incoming_guids_spec l := by
      rw [cashflow_step₁_incoming_order]
      exact h1
    have h2' : (cashflow_step₁ acc row).outgoing_order = outgoing_guids_spec l := by
      rw [cashflow_step₁_outgoing_order]
      exact h2
    have h3' : ∀ g, dlookup g (cashflow_step₁ acc row).incoming_totals
        = if g ∈ incoming_guids_spec l then some (sum_pos_spec l g) else none := by
      intro g
      rw [cashflow_step₁_incoming_totals]
      exact h3 g
    have h4' : ∀ g, dlookup g (cashflow_step₁ acc row).outgoing_totals
        = if g ∈ outgoing_guids_spec l then some (sum_neg_spec l g) else none := by
      intro g
      rw [cashflow_step₁_outgoing_totals]
      exact h4 g
    obtain ⟨k1, k2, k3, k4⟩ :=
      cashflow_step₂_spec l row (cashflow_step₁ acc row) hz h1' h2' h3' h4'
    rw [hstep]
    refine ⟨k1, k2, k3, k4, ?_⟩
    intro g
    rw [cashflow_step₂_metadata]
    exact cashflow_step₁_metadata_spec l row acc hbz h5 g

theorem cashflow_phase1_spec (rows l : List CashflowRow) (acc : CashflowAcc)
    (h1 : acc.incoming_order = incoming_guids_spec l)
    (h2 : acc.outgoing_order = outgoing_guids_spec l)
    (h3 : ∀ g, dlookup g acc.incoming_totals
        = if g ∈ incoming_guids_spec l then some (sum_pos_spec l g) else none)
    (h4 : ∀ g, dlookup g acc.outgoing_totals
        = if g ∈ outgoing_guids_spec l then some (sum_neg_spec l g) else none)
    (h5 : ∀ g, dlookup g acc.metadata
        = (meta_find l g).map (fun r => (r.account_full_name, r.top_parent_name))) :
    (cashflow_phase1 acc rows).incoming_order = incoming_guids_spec (l ++ rows)
    ∧ (cashflow_phase1 acc rows).outgoing_order = outgoing_guids_spec (l ++ rows)
    ∧ (∀ g, dlookup g (cashflow_phase1 acc rows).incoming_totals
        = if g ∈ incoming_guids_spec (l ++ rows) then some (sum_pos_spec (l ++ rows) g)
          else none)
    ∧ (∀ g, dlookup g (cashflow_phase1 acc rows).outgoing_totals
        = if g ∈ outgoing_guids_spec (l ++ rows) then some (sum_neg_spec (l ++ rows) g)
          else none)
    ∧ (∀ g, dlookup g (cashflow_phase1 acc rows).metadata
        = (meta_find (l ++ rows) g).map
          (fun r => (r.account_full_name, r.top_parent_name))) := by
  induction rows generalizing l acc with
  | nil =>
      rw [List.append_nil]
      exact ⟨by simpa [cashflow_phase1] using h1, by simpa [cashflow_phase1] using h2,
        by simpa [cashflow_phase1] using h3, by simpa [cashflow_phase1] using h4,
        by simpa [cashflow_phase1] using h5⟩
  | cons row rest ih =>
      have hassoc : l ++ row :: rest = (l ++ [row]) ++ rest := by simp
      rw [hassoc, cashflow_phase1_cons]
      obtain ⟨k1, k2, k3, k4, k5⟩ := cashflow_step_spec l row acc h1 h2 h3 h4 h5
      exact ih (l ++ [row]) (cashflow_step acc row) k1 k2 k3 k4 k5

theorem cashflow_phase2_items (totals : List (String × ℚ))
    (metadata : List (String × (String × Option String)))
    (f : String → ℚ) (m : String → String × Option String)
    (order : List String) (items : List CashflowItem) (total : ℚ)
    (hf : ∀ g ∈ order, dlookup g totals = some (f g))
    (hnz : ∀ g ∈ order, f g ≠ 0)
    (hm : ∀ g ∈ order, dlookup g metadata = some (m g)) :
    (cashflow_phase2 totals metadata items total order).1
      = items ++ order.map (fun g => ⟨(m g).1, f g, (m g).2⟩) := by
  revert hf hnz hm
  induction order generalizing items total with
  | nil =>
      intro _ _ _
      simp [cashflow_phase2]
  | cons guid rest ih =>
      intro hf hnz hm
      have hfg : dlookup guid totals = some (f guid) := hf guid (by simp)
      have hmg : dlookup guid metadata = some (m guid) := hm guid (by simp)
      have hnzg : f guid ≠ 0 := hnz guid (by simp)
      simp only [cashflow_phase2, hfg, Option.getD_some, if_neg hnzg, hmg]
      rw [ih _ _ (fun g hg => hf g (by simp [hg])) (fun g hg => hnz g (by simp [hg]))
        (fun g hg => hm g (by simp [hg]))]
      simp

theorem str_eval_salaire : parse_account_path "Revenus:Salaire" = ["Revenus", "Salaire"] := by
  decide

/-- C7. In the cashflow aggregation: a row whose amount coerces to zero
contributes nothing; the reported `total_in` and `total_out` are the
sums of the amounts of the incoming and outgoing item lists; the
summary's `difference` is `total_in - total_out`; and on the rows
`[Revenus:Salaire +100, Revenus:Salaire +50, Depenses:Courses -40,
Passif:Credit -10]` the view has totals `150` / `50` (difference `100`),
a single incoming item `(Revenus:Salaire, 150)` and the outgoing items
`(Depenses:Courses, 40)` then `(Passif:Credit, 10)` in row order.
Moreover, on every input the incoming (resp. outgoing) item list holds
exactly one item per account with a positive (resp. negative)
contribution, in first-seen order, carrying the account's summed
positive (resp. summed absolute negative) amounts and the name and top
parent of its first nonzero row. -/
theorem cashflow_execute_spec (tc : String) (row : CashflowRow)
    (pre post : List CashflowRow) :
    (coerce_decimal row.amount = 0 →
      execute_cashflow tc (pre ++ row :: post) = execute_cashflow tc (pre ++ post))
    ∧ (∀ rows, (execute_cashflow tc rows).summary.total_in
        = ((execute_cashflow tc rows).incoming.map CashflowItem.amount).sum)
    ∧ (∀ rows, (execute_cashflow tc rows).summary.total_out
        = ((execute_cashflow tc rows).outgoing.map CashflowItem.amount).sum)
    ∧ (∀ rows, (execute_cashflow tc rows).summary.difference
        = (execute_cashflow tc rows).summary.total_in
          - (execute_cashflow tc rows).summary.total_out)
    ∧ execute_cashflow "EUR"
        [⟨"g1", "Revenus:Salaire", some "Revenus", some 100⟩,
         ⟨"g1", "Revenus:Salaire", some "Revenus", some 50⟩,
         ⟨"g2", "Depenses:Courses", some "Depenses", some (-40)⟩,
         ⟨"g3", "Passif:Credit", some "Passif", some (-10)⟩]
        = ⟨⟨150, 50, "EUR"⟩,
           [⟨"Revenus:Salaire", 150, some "Revenus"⟩],
           [⟨"Depenses:Courses", 40, some "Depenses"⟩,
            ⟨"Passif:Credit", 10, some "Passif"⟩]⟩
    ∧ (∀ rows, (execute_cashflow tc rows).incoming = incoming_items_spec rows
        ∧ (execute_cashflow tc rows).outgoing = outgoing_items_spec rows) := by
  refine ⟨?_, ?_, ?_, ?_, ?_, ?_⟩
  · intro h
    have hskip : ∀ acc : CashflowAcc,
        cashflow_phase1 acc (row :: post) = cashflow_phase1 acc post := by
      intro acc
      rw [cashflow_phase1, if_pos h]
    rw [execute_cashflow, execute_cashflow, cashflow_phase1_append, hskip,
      ← cashflow_phase1_append]
  · intro rows
    rw [execute_cashflow]
    exact cashflow_phase2_total_eq_sum _ _ _
  · intro rows
    rw [execute_cashflow]
    exact cashflow_phase2_total_eq_sum _ _ _
  · intro rows
    rfl
  · have hg12 : ¬(("g1":String) = "g2") := by decide
    have hg13 : ¬(("g1":String) = "g3") := by decide
    have hg23 : ¬(("g2":String) = "g3") := by decide
    norm_num [execute_cashflow, cashflow_phase1, cashflow_phase2, dlookup, dinsert,
      coerce_decimal, hg12, hg13, hg23, CashflowView.mk.injEq, CashflowSummary.mk.injEq,
      CashflowItem.mk.injEq]
  · intro rows
    obtain ⟨k1, k2, k3, k4, k5⟩ := cashflow_phase1_spec rows [] ⟨[], [], [], [], []⟩
      (by simp [incoming_guids_spec, first_seen, first_seen_aux])
      (by simp [outgoing_guids_spec, first_seen, first_seen_aux])
      (fun g => by simp [incoming_guids_spec, first_seen, first_seen_aux])
      (fun g => by simp [outgoing_guids_spec, first_seen, first_seen_aux])
      (fun g => by simp [meta_find])
    simp only [List.nil_append] at k1 k2 k3 k4 k5
    have hinc : (execute_cashflow tc rows).incoming
        = (cashflow_phase2 (cashflow_phase1 ⟨[], [], [], [], []⟩ rows).incoming_totals
            (cashflow_phase1 ⟨[], [], [], [], []⟩ rows).metadata [] 0
            (cashflow_phase1 ⟨[], [], [], [], []⟩ rows).incoming_order).1 := rfl
    have hout : (execute_cashflow tc rows).outgoing
        = (cashflow_phase2 (cashflow_phase1 ⟨[], [], [], [], []⟩ rows).outgoing_totals
            (cashflow_phase1 ⟨[], [], [], [], []⟩ rows).metadata [] 0
            (cashflow_phase1 ⟨[], [], [], [], []⟩ rows).outgoing_order).1 := rfl
    have hmetaIn : ∀ g ∈ incoming_guids_spec rows,
        dlookup g (cashflow_phase1 ⟨[], [], [], [], []⟩ rows).metadata
          = some (row_meta_spec rows g) := by
      intro g hg
      have hex : ∃ r, r ∈ rows ∧ (row_has_guid g r && is_nonzero_row r) = true := by
        rw [incoming_guids_spec, mem_first_seen] at hg
        obtain ⟨r, hr, hgr⟩ := List.mem_map.mp hg
        obtain ⟨hrl, hrp⟩ := List.mem_filter.mp hr
        refine ⟨r, hrl, ?_⟩
        rw [Bool.and_eq_true_iff]
        refine ⟨decide_eq_true hgr, ?_⟩
        have hpos : 0 < coerce_decimal r.amount := of_decide_eq_true hrp
        simp [is_nonzero_row, hpos.ne']
      have hsome : (meta_find rows g).isSome := by
        rw [meta_find, List.find?_isSome]
        exact hex
      obtain ⟨r, hr⟩ := Option.isSome_iff_exists.mp hsome
      rw [k5 g, hr]
      simp [row_meta_spec, hr]
    have hmetaOut : ∀ g ∈ outgoing_guids_spec rows,
        dlookup g (cashflow_phase1 ⟨[], [], [], [], []⟩ rows).metadata
          = some (row_meta_spec rows g) := by
      intro g hg
      have hex : ∃ r, r ∈ rows ∧ (row_has_guid g r && is_nonzero_row r) = true := by
        rw [outgoing_guids_spec, mem_first_seen] at hg
        obtain ⟨r, hr, hgr⟩ := List.mem_map.mp hg
        obtain ⟨hrl, hrp⟩ := List.mem_filter.mp hr
        refine ⟨r, hrl, ?_⟩
        rw [Bool.and_eq_true_iff]
        refine ⟨decide_eq_true hgr, ?_⟩
        have hneg : coerce_decimal r.amount < 0 := of_decide_eq_true hrp
        simp [is_nonzero_row, hneg.ne]
      have hsome : (meta_find rows g).isSome := by
        rw [meta_find, List.find?_isSome]
        exact hex
      obtain ⟨r, hr⟩ := Option.isSome_iff_exists.mp hsome
      rw [k5 g, hr]
      simp [row_meta_spec, hr]
    have hfIn : ∀ g ∈ incoming_guids_spec rows,
        dlookup g (cashflow_phase1 ⟨[], [], [], [], []⟩ rows).incoming_totals
          = some (sum_pos_spec rows g) := by
      intro g hg
      rw [k3 g, if_pos hg]
    have hnzIn : ∀ g ∈ incoming_guids_spec rows, sum_pos_spec rows g ≠ 0 := by
      intro g hg
      exact (sum_pos_spec_pos rows g hg).ne'
    have hfOut : ∀ g ∈ outgoing_guids_spec rows,
        dlookup g (cashflow_phase1 ⟨[], [], [], [], []⟩ rows).outgoing_totals
          = some (sum_neg_spec rows g) := by
      intro g hg
      rw [k4 g, if_pos hg]
    have hnzOut : ∀ g ∈ outgoing_guids_spec rows, sum_neg_spec rows g ≠ 0 := by
      intro g hg
      exact (sum_neg_spec_pos rows g hg).ne'
    constructor
    · rw [hinc, k1,
        cashflow_phase2_items _ _ (sum_pos_spec rows) (row_meta_spec rows) _ _ _
          hfIn hnzIn hmetaIn]
      simp [incoming_items_spec]
    · rw [hout, k2,
        cashflow_phase2_items _ _ (sum_neg_spec rows) (row_meta_spec rows) _ _ _
          hfOut hnzOut hmetaOut]
      simp [outgoing_items_spec]

/-- Witness for C7: dropping a zero-amount row, applied at a concrete
input. -/
theorem cashflow_execute_spec_witness :
    coerce_decimal (some (0:ℚ)) = 0
    ∧ execute_cashflow "EUR"
        [⟨"g1", "Revenus", some "Revenus", some 100⟩,
         ⟨"g0", "Zero", some "Zero", some 0⟩]
      = execute_cashflow "EUR" [⟨"g1", "Revenus", some "Revenus", some 100⟩] :=
  ⟨rfl,
    by
      have h := (cashflow_execute_spec "EUR" ⟨"g0", "Zero", some "Zero", some 0⟩
        [⟨"g1", "Revenus", some "Revenus", some 100⟩] []).1 rfl
      simpa using h⟩

/-! ### Theorems: asset category breakdown (C8) -/

theorem py_insert_mem {α : Type} (le : α → α → Bool) (a x : α) (l : List α) :
    x ∈ py_insert le a l ↔ x = a ∨ x ∈ l := by
  induction l with
  | nil => simp [py_insert]
  | cons b rest ih =>
      by_cases h : le b a
      · simp [py_insert, h, ih]
        tauto
      · simp [py_insert, h, ih]

theorem py_sorted_mem_aux {α : Type} (le : α → α → Bool) (l : List α)
    (acc : List α) (x : α) :
    x ∈ l.foldl (fun acc a => py_insert le a acc) acc ↔ x ∈ acc ∨ x ∈ l := by
  induction l generalizing acc with
  | nil => simp
  | cons a rest ih =>
      rw [List.foldl_cons, ih]
      rw [py_insert_mem]
      simp
      tauto

theorem py_sorted_mem {α : Type} (le : α → α → Bool) (l : List α) (x : α) :
    x ∈ py_sorted le l ↔ x ∈ l := by
  rw [py_sorted, py_sorted_mem_aux]
  simp

theorem py_insert_pairwise {α : Type} (le : α → α → Bool)
    (htrans : ∀ a b c, le a b = true → le b c = true → le a c = true)
    (htot : ∀ a b, (le a b || le b a) = true) (a : α) (l : List α)
    (h : l.Pairwise (le · · = true)) :
    (py_insert le a l).Pairwise (le · · = true) := by
  induction l with
  | nil => simp [py_insert]
  | cons b rest ih =>
      rw [List.pairwise_cons] at h
      by_cases hba : le b a
      · rw [py_insert, if_pos hba, List.pairwise_cons]
        refine ⟨?_, ih h.2⟩
        intro x hx
        rcases (py_insert_mem le a x rest).mp hx with hxa | hxr
        · subst hxa; exact hba
        · exact h.1 x hxr
      · have hab : le a b = true := by
          have := htot a b
          rcases Bool.or_eq_true_iff.mp this with h₁ | h₁
          · exact h₁
          · exact absurd h₁ hba
        rw [py_insert, if_neg hba, List.pairwise_cons, List.pairwise_cons]
        refine ⟨?_, h.1, h.2⟩
        intro x hx
        rcases List.mem_cons.mp hx with hxb | hxr
        · subst hxb; exact hab
        · exact htrans a b x hab (h.1 x hxr)

theorem py_sorted_pairwise_aux {α : Type} (le : α → α → Bool)
    (htrans : ∀ a b c, le a b = true → le b c = true → le a c = true)
    (htot : ∀ a b, (le a b || le b a) = true) (l : List α) (acc : List α)
    (h : acc.Pairwise (le · · = true)) :
    (l.foldl (fun acc a => py_insert le a acc) acc).Pairwise (le · · = true) := by
  induction l generalizing acc with
  | nil => simpa using h
  | cons a rest ih =>
      rw [List.foldl_cons]
      exact ih _ (py_insert_pairwise le htrans htot a acc h)

theorem py_sorted_pairwise {α : Type} (le : α → α → Bool)
    (htrans : ∀ a b c, le a b = true → le b c = true → le a c = true)
    (htot : ∀ a b, (le a b || le b a) = true) (l : List α) :
    (py_sorted le l).Pairwise (le · · = true) :=
  py_sorted_pairwise_aux le htrans htot l [] (List.Pairwise.nil)

theorem chars_lt_trans (a b c : List Char) (hab : chars_lt a b = true)
    (hbc : chars_lt b c = true) : chars_lt a c = true := by
  induction a generalizing b c with
  | nil =>
      cases b with
      | nil => simp [chars_lt] at hab
      | cons y ys =>
          cases c with
          | nil => simp [chars_lt] at hbc
          | cons z zs => simp [chars_lt]
  | cons x xs ih =>
      cases b with
      | nil => simp [chars_lt] at hab
      | cons y ys =>
          cases c with
          | nil => simp [chars_lt] at hbc
          | cons z zs =>
              rw [chars_lt] at hab hbc ⊢
              by_cases hxy : x.toNat < y.toNat
              · by_cases hyz : y.toNat < z.toNat
                · rw [if_pos (by omega : x.toNat < z.toNat)]
                · simp only [if_pos hxy] at hab
                  by_cases hzy : z.toNat < y.toNat
                  · simp only [if_neg hyz, if_pos hzy] at hbc
                    cases hbc
                  · rw [if_pos (by omega : x.toNat < z.toNat)]
              · by_cases hyx : y.toNat < x.toNat
                · simp only [if_neg hxy, if_pos hyx] at hab
                  cases hab
                · simp only [if_neg hxy, if_neg hyx] at hab
                  by_cases hyz : y.toNat < z.toNat
                  · rw [if_pos (by omega : x.toNat < z.toNat)]
                  · by_cases hzy : z.toNat < y.toNat
                    · simp only [if_neg hyz, if_pos hzy] at hbc
                      cases hbc
                    · simp only [if_neg hyz, if_neg hzy] at hbc
                      rw [if_neg (by omega : ¬ x.toNat < z.toNat),
                        if_neg (by omega : ¬ z.toNat < x.toNat)]
                      exact ih ys zs hab hbc

theorem chars_lt_connex (a b : List Char) (hab : chars_lt a b = false)
    (hba : chars_lt b a = false) : a = b := by
  induction a generalizing b with
  | nil =>
      cases b with
      | nil => rfl
      | cons y ys => simp [chars_lt] at hab
  | cons x xs ih =>
      cases b with
      | nil => simp [chars_lt] at hba
      | cons y ys =>
          rw [chars_lt] at hab hba
          by_cases hxy : x.toNat < y.toNat
          · simp [if_pos hxy] at hab
          · by_cases hyx : y.toNat < x.toNat
            · simp [if_neg hxy, if_pos hyx] at hab
              simp [if_pos hyx] at hba
            · simp only [if_neg hxy, if_neg hyx] at hab
              simp only [if_neg hyx, if_neg hxy] at hba
              have hx : x = y := Char.ext (UInt32.ext (show x.toNat = y.toNat by omega))
              rw [hx, ih ys hab hba]

theorem breakdown_key_le_trans (p q r : Option String × String)
    (hpq : breakdown_key_le p q = true) (hqr : breakdown_key_le q r = true) :
    breakdown_key_le p r = true := by
  rw [breakdown_key_le] at hpq hqr ⊢
  rcases Bool.or_eq_true_iff.mp hpq with h₁ | h₁ <;>
    rcases Bool.or_eq_true_iff.mp hqr with h₂ | h₂
  · refine Bool.or_eq_true_iff.mpr (Or.inl ?_)
    cases hp : p.1 <;> cases hq : q.1 <;> cases hr : r.1 <;>
      simp_all [opt_str_lt, str_lt]
    exact chars_lt_trans _ _ _ h₁ h₂
  · obtain ⟨h₂a, _⟩ := Bool.and_eq_true_iff.mp h₂
    have : q.1 = r.1 := by simpa using h₂a
    exact Bool.or_eq_true_iff.mpr (Or.inl (this ▸ h₁))
  · obtain ⟨h₁a, _⟩ := Bool.and_eq_true_iff.mp h₁
    have : p.1 = q.1 := by simpa using h₁a
    exact Bool.or_eq_true_iff.mpr (Or.inl (this ▸ h₂))
  · obtain ⟨h₁a, h₁b⟩ := Bool.and_eq_true_iff.mp h₁
    obtain ⟨h₂a, h₂b⟩ := Bool.and_eq_true_iff.mp h₂
    have hq₁ : p.1 = q.1 := by simpa using h₁a
    have hq₂ : q.1 = r.1 := by simpa using h₂a
    refine Bool.or_eq_true_iff.mpr (Or.inr (Bool.and_eq_true_iff.mpr ⟨by simp [hq₁, hq₂], ?_⟩))
    rw [str_le] at h₁b h₂b ⊢
    rcases Bool.or_eq_true_iff.mp h₁b with h₃ | h₃ <;>
      rcases Bool.or_eq_true_iff.mp h₂b with h₄ | h₄
    · exact Bool.or_eq_true_iff.mpr (Or.inl
        (chars_lt_trans _ _ _ h₃ h₄))
    · have : q.2 = r.2 := by simpa using h₄
      exact Bool.or_eq_true_iff.mpr (Or.inl (this ▸ h₃))
    · have : p.2 = q.2 := by simpa using h₃
      exact Bool.or_eq_true_iff.mpr (Or.inl (this ▸ h₄))
    · have h₅ : p.2 = q.2 := by simpa using h₃
      have h₆ : q.2 = r.2 := by simpa using h₄
      exact Bool.or_eq_true_iff.mpr (Or.inr (by simp [h₅, h₆]))

theorem breakdown_key_le_total (p q : Option String × String) :
    (breakdown_key_le p q || breakdown_key_le q p) = true := by
  rw [breakdown_key_le, breakdown_key_le]
  by_cases h₁ : opt_str_lt p.1 q.1 = true
  · simp [h₁]
  · by_cases h₂ : opt_str_lt q.1 p.1 = true
    · simp [h₂]
    · have hq : p.1 = q.1 := by
        cases hp : p.1 <;> cases hqq : q.1 <;> simp_all [opt_str_lt, str_lt]
        exact congrArg String.mk (chars_lt_connex _ _
          (by simpa using h₁) (by simpa using h₂))
      by_cases h₃ : str_lt p.2 q.2 = true
      · simp [hq, str_le, h₃]
      · by_cases h₄ : str_lt q.2 p.2 = true
        · simp [hq, str_le, h₄]
        · have he : p.2 = q.2 := congrArg String.mk (chars_lt_connex _ _
            (by simpa [str_lt] using h₃) (by simpa [str_lt] using h₄))
          simp [hq, str_le, he]

theorem breakdown_loop_append (aT : List String) (level : Nat) (tg tc : String)
    (pr : List (String × ℚ)) (xs ys : List AssetCategoryBalanceRow)
    (totals : List ((Option String × String) × ℚ)) :
    breakdown_loop aT level tg tc pr totals (xs ++ ys)
      = breakdown_loop aT level tg tc pr (breakdown_loop aT level tg tc pr totals xs) ys := by
  induction xs generalizing totals with
  | nil => simp [breakdown_loop]
  | cons row rest ih =>
      rw [List.cons_append, breakdown_loop, breakdown_loop]
      by_cases h₁ : row.account_type ∉ aT
      · simp only [if_pos h₁]
        exact ih totals
      · simp only [if_neg h₁]
        by_cases h₂ : falsy_opt_str (resolve_category row level)

        · simp only [if_pos h₂]
          exact ih totals
        · simp only [if_neg h₂]
          cases convert_balance (coerce_decimal row.balance) row.commodity_guid
              row.mnemonic row.namespace_ tg tc pr <;> apply ih

theorem breakdown_loop_key_origin (aT : List String) (level : Nat) (tg tc : String)
    (pr : List (String × ℚ)) (rows : List AssetCategoryBalanceRow)
    (totals : List ((Option String × String) × ℚ)) (k : Option String × String)
    (h : k ∈ dkeys (breakdown_loop aT level tg tc pr totals rows)) :
    k ∈ dkeys totals
      ∨ ∃ row ∈ rows, k.1 = (if level = 2 then row.actif_category else none)
          ∧ resolve_category row level = some k.2 := by
  induction rows generalizing totals with
  | nil =>
      simp only [breakdown_loop] at h
      exact Or.inl h
  | cons row rest ih =>
      by_cases h₁ : row.account_type ∉ aT
      · rw [breakdown_loop, if_pos h₁] at h
        rcases ih totals h with hl | ⟨r, hr, hp⟩
        · exact Or.inl hl
        · exact Or.inr ⟨r, List.mem_cons_of_mem _ hr, hp⟩
      · rw [breakdown_loop, if_neg h₁] at h
        by_cases h₂ : falsy_opt_str (resolve_category row level)
        · rw [if_pos h₂] at h
          rcases ih totals h with hl | ⟨r, hr, hp⟩
          · exact Or.inl hl
          · exact Or.inr ⟨r, List.mem_cons_of_mem _ hr, hp⟩
        · rw [if_neg h₂] at h
          cases hconv : convert_balance (coerce_decimal row.balance) row.commodity_guid
              row.mnemonic row.namespace_ tg tc pr with
          | none =>
              rw [hconv] at h
              rcases ih totals h with hl | ⟨r, hr, hp⟩
              · exact Or.inl hl
              · exact Or.inr ⟨r, List.mem_cons_of_mem _ hr, hp⟩
          | some c =>
              rw [hconv] at h
              rcases ih _ h with hl | ⟨r, hr, hp⟩
              · by_cases hmem : (dlookup ((if level = 2 then row.actif_category else none),
                    (resolve_category row level).getD "") totals).isSome
                · rw [dkeys_dinsert_of_mem _ _ _ hmem] at hl
                  exact Or.inl hl
                · have hnone : dlookup ((if level = 2 then row.actif_category else none),
                      (resolve_category row level).getD "") totals = none := by
                    cases hv : dlookup ((if level = 2 then row.actif_category else none),
                        (resolve_category row level).getD "") totals with
                    | none => rfl
                    | some v => rw [hv] at hmem; simp at hmem
                  rw [dkeys_dinsert_of_not_mem _ _ _ hnone] at hl
                  rcases List.mem_append.mp hl with hl₁ | hl₂
                  · exact Or.inl hl₁
                  · have hk : k = ((if level = 2 then row.actif_category else none),
                        (resolve_category row level).getD "") := by
                      simpa using hl₂
                    refine Or.inr ⟨row, List.mem_cons_self _ _, ?_, ?_⟩
                    · rw [hk]
                    · rw [hk]
                      cases hcat : resolve_category row level with
                      | none => rw [hcat] at h₂; simp [falsy_opt_str] at h₂
                      | some v => simp
              · exact Or.inr ⟨r, List.mem_cons_of_mem _ hr, hp⟩

/-- C8. In the asset-category breakdown: non-asset rows are skipped;
rows with a falsy resolved category are skipped; at `level=1` every
produced amount has no parent (key `(None, actif_category)`); at
`level=2` every produced amount's `(parent, category)` pair originates
from a row's `(actif_category, actif_subcategory)`; the category list is
sorted by the tuple key; and on the three concrete asset rows of the
specification the level-1 breakdown is `Actifs actuels = 110` then
`Investissements = 100`. -/
theorem breakdown_execute_spec (aT : List String) (level : Nat) (tg tc : String)
    (row : AssetCategoryBalanceRow) (pre post : List AssetCategoryBalanceRow)
    (price_rows : List PriceRow) :
    (row.account_type ∉ aT →
      execute_breakdown aT level tg tc (pre ++ row :: post) price_rows
        = execute_breakdown aT level tg tc (pre ++ post) price_rows)
    ∧ (falsy_opt_str (resolve_category row level) = true →
      execute_breakdown aT level tg tc (pre ++ row :: post) price_rows
        = execute_breakdown aT level tg tc (pre ++ post) price_rows)
    ∧ (∀ rows item, item ∈ (execute_breakdown aT 1 tg tc rows price_rows).categories →
        item.parent_category = none)
    ∧ (∀ rows item, item ∈ (execute_breakdown aT 2 tg tc rows price_rows).categories →
        ∃ r ∈ rows, item.parent_category = r.actif_category
          ∧ r.actif_subcategory = some item.category)
    ∧ (∀ rows, ((execute_breakdown aT level tg tc rows price_rows).categories).Pairwise
        (fun x y => breakdown_key_le (x.parent_category, x.category)
          (y.parent_category, y.category) = true))
    ∧ execute_breakdown DEFAULT_ASSET_TYPES 1 "EURGUID" "EUR"
        [⟨"BANK", "USDGUID", "USD", "CURRENCY", some "Actifs actuels", none, some 100⟩,
         ⟨"CASH", "EURGUID", "EUR", "CURRENCY", some "Actifs actuels", none, some 20⟩,
         ⟨"STOCK", "XYZGUID", "XYZ", "NASDAQ", some "Investissements", none, some 2⟩]
        [⟨"USDGUID", some 9, some 10⟩, ⟨"XYZGUID", some 50, some 1⟩]
        = ⟨"EUR", [⟨"Actifs actuels", 110, none⟩, ⟨"Investissements", 100, none⟩]⟩ := by
  have hskip : ∀ (h : row.account_type ∉ aT ∨
      falsy_opt_str (resolve_category row level) = true)
      (totals : List ((Option String × String) × ℚ)),
      breakdown_loop aT level tg tc (build_price_map price_rows) totals (row :: post)
        = breakdown_loop aT level tg tc (build_price_map price_rows) totals post := by
    intro h totals
    rcases h with h | h
    · rw [breakdown_loop, if_pos h]
    · rw [breakdown_loop]
      by_cases h₁ : row.account_type ∉ aT
      · rw [if_pos h₁]
      · rw [if_neg h₁, if_pos h]
  refine ⟨?_, ?_, ?_, ?_, ?_, ?_⟩
  · intro h
    rw [execute_breakdown, execute_breakdown, breakdown_loop_append,
      hskip (Or.inl h), ← breakdown_loop_append]
  · intro h
    rw [execute_breakdown, execute_breakdown, breakdown_loop_append,
      hskip (Or.inr h), ← breakdown_loop_append]
  · intro rows item hitem
    simp only [execute_breakdown] at hitem
    obtain ⟨kv, hkv, hf⟩ := List.mem_map.mp hitem
    rw [py_sorted_mem] at hkv
    have hkey : kv.1 ∈ dkeys (breakdown_loop aT 1 tg tc
        (build_price_map price_rows) [] rows) := List.mem_map.mpr ⟨kv, hkv, rfl⟩
    rcases breakdown_loop_key_origin aT 1 tg tc _ rows [] kv.1 hkey with hl | ⟨r, _, hp, _⟩
    · simp [dkeys] at hl
    · rw [← hf]
      simpa using hp
  · intro rows item hitem
    simp only [execute_breakdown] at hitem
    obtain ⟨kv, hkv, hf⟩ := List.mem_map.mp hitem
    rw [py_sorted_mem] at hkv
    have hkey : kv.1 ∈ dkeys (breakdown_loop aT 2 tg tc
        (build_price_map price_rows) [] rows) := List.mem_map.mpr ⟨kv, hkv, rfl⟩
    rcases breakdown_loop_key_origin aT 2 tg tc _ rows [] kv.1 hkey with hl | ⟨r, hr, hp, hcat⟩
    · simp [dkeys] at hl
    · refine ⟨r, hr, ?_, ?_⟩
      · rw [← hf]
        simpa using hp
      · rw [← hf]
        simp only [resolve_category] at hcat
        norm_num at hcat
        exact hcat
  · intro rows
    simp only [execute_breakdown]
    have hps := py_sorted_pairwise (fun a b => breakdown_key_le a.1 b.1)
      (fun a b c hab hbc => breakdown_key_le_trans a.1 b.1 c.1 hab hbc)
      (fun a b => breakdown_key_le_total a.1 b.1)
      (breakdown_loop aT level tg tc (build_price_map price_rows) [] rows)
    refine List.Pairwise.map _ ?_ hps
    intro a b hab
    simpa using hab
  · have hf1 : falsy_opt_str (some "Actifs actuels") = false := by decide
    have hf2 : falsy_opt_str (some "Investissements") = false := by decide
    have hle : breakdown_key_le (none, "Actifs actuels") (none, "Investissements") = true := by
      decide
    have hc1 : ¬("USDGUID" = "" ∨ "USD" = "") := by decide
    have hc2 : ¬("CURRENCY" = "TEMPLATE" ∨ "usd" = "template") := by decide
    have hc3 : ¬("CURRENCY" = "CURRENCY" ∧ ("USDGUID" = "EURGUID" ∨ "USD" = "EUR")) := by
      decide
    have hc4 : ¬("EURGUID" = "" ∨ "EUR" = "") := by decide
    have hc5 : ¬("CURRENCY" = "TEMPLATE" ∨ "eur" = "template") := by decide
    have hc6 : ¬("XYZGUID" = "" ∨ "XYZ" = "") := by decide
    have hc7 : ¬(str_to_upper "NASDAQ" = "TEMPLATE" ∨ str_to_lower "XYZ" = "template") := by
      decide
    have hc8 : ¬("NASDAQ" = "CURRENCY" ∧ ("XYZGUID" = "EURGUID" ∨ "XYZ" = "EUR")) := by
      decide
    have hc9 : ¬(("USDGUID":String) = "XYZGUID") := by decide
    have hc10 : ¬((none, "Actifs actuels") = ((none, "Investissements") :
        Option String × String)) := by decide
    have hd1 : ¬(("Actifs actuels":String) = "") := by decide
    have hd2 : ¬(("Investissements":String) = "") := by decide
    have hd3 : ¬("USDGUID" = "EURGUID" ∨ "USD" = "EUR") := by decide
    have hd4 : ¬(("NASDAQ":String) = "CURRENCY") := by decide
    norm_num [execute_breakdown, breakdown_loop, build_price_map, price_map_loop,
      DEFAULT_ASSET_TYPES, hd1, hd2, hd3, hd4,
      resolve_category, falsy_opt_str, convert_balance, coerce_decimal, dlookup, dinsert,
      py_sorted, py_insert, hf1, hf2, hle, hc1, hc2, hc3, hc4, hc5, hc6, hc7, hc8, hc9, hc10,
      str_to_upper_currency_eval, str_to_lower_usd_eval, str_to_lower_eur_eval,
      AssetCategoryBreakdown.mk.injEq, AssetCategoryAmount.mk.injEq]

/-- Witness for C8: the non-asset skip clause applied at a concrete
EQUITY row. -/
theorem breakdown_execute_spec_witness :
    ("EQUITY" ∉ DEFAULT_ASSET_TYPES)
    ∧ execute_breakdown DEFAULT_ASSET_TYPES 1 "EURGUID" "EUR"
        [⟨"EQUITY", "EURGUID", "EUR", "CURRENCY", some "X", none, some 3⟩] []
      = execute_breakdown DEFAULT_ASSET_TYPES 1 "EURGUID" "EUR" [] [] :=
  ⟨by decide,
    by
      have h := (breakdown_execute_spec DEFAULT_ASSET_TYPES 1 "EURGUID" "EUR"
        ⟨"EQUITY", "EURGUID", "EUR", "CURRENCY", some "X", none, some 3⟩ [] [] []).1
        (by decide)
      simpa using h⟩

/-! ### Theorems: Sankey node interning (C1) -/

theorem node_builder_inv_nil : NodeBuilderInv ⟨[], [], [], []⟩ := by
  refine ⟨List.nodup_nil, ?_, ?_⟩
  · intro k
    simp [dlookup]
  · intro k s h
    simp [dlookup] at h

theorem add_node_inv (b : NodeBuilder) (key label : String) (side : Side)
    (root : Option String) (hpfx : ∃ r, key = side_pfx side ++ r)
    (h : NodeBuilderInv b) : NodeBuilderInv (add_node b key label side root).2 := by
  obtain ⟨hnodup, hsync, hpre⟩ := h
  rw [add_node]
  by_cases hmem : (dlookup key b.side_by_key).isSome
  · simpa [hmem] using ⟨hnodup, hsync, hpre⟩
  · have hnone : dlookup key b.side_by_key = none := by
      cases hv : dlookup key b.side_by_key with
      | none => rfl
      | some v => rw [hv] at hmem; simp at hmem
    simp only [hmem, Bool.false_eq_true, if_false]
    refine ⟨?_, ?_, ?_⟩
    · rw [List.nodup_append]
      refine ⟨hnodup, List.nodup_singleton _, ?_⟩
      intro a ha hb
      simp at hb
      subst hb
      have := (hsync a).mp ha
      rw [hnone] at this
      simp at this
    · intro k
      by_cases hk : k = key
      · subst hk
        simp [dlookup_dinsert_self]
      · rw [dlookup_dinsert_ne _ _ _ _ hk]
        simp only [List.mem_append, List.mem_singleton, hk, or_false]
        exact hsync k
    · intro k s hks
      by_cases hk : k = key
      · subst hk
        rw [dlookup_dinsert_self] at hks
        cases hks
        exact hpfx
      · rw [dlookup_dinsert_ne _ _ _ _ hk] at hks
        exact hpre k s hks

theorem add_node_preserves_lookup (b : NodeBuilder) (key label : String) (side : Side)
    (root : Option String) (k : String) (s : Side)
    (h : dlookup k b.side_by_key = some s) :
    dlookup k (add_node b key label side root).2.side_by_key = some s := by
  rw [add_node]
  by_cases hmem : (dlookup key b.side_by_key).isSome
  · simpa [hmem] using h
  · simp only [hmem, Bool.false_eq_true, if_false]
    have hk : k ≠ key := by
      intro hkk
      subst hkk
      rw [h] at hmem
      simp at hmem
    rw [dlookup_dinsert_ne _ _ _ _ hk]
    exact h

theorem add_node_lookup_isSome (b : NodeBuilder) (key label : String) (side : Side)
    (root : Option String) :
    (dlookup key (add_node b key label side root).2.side_by_key).isSome := by
  rw [add_node]
  by_cases hmem : (dlookup key b.side_by_key).isSome
  · simp [hmem]
  · simp only [hmem, Bool.false_eq_true, if_false]
    rw [dlookup_dinsert_self]
    rfl

theorem add_side_nodes_inv (side : Side) (grouped : List (String × ℚ × String))
    (b : NodeBuilder) (idx : List (String × Nat)) (h : NodeBuilderInv b) :
    NodeBuilderInv (add_side_nodes side grouped b idx).2 := by
  induction grouped generalizing b idx with
  | nil => simpa [add_side_nodes] using h
  | cons g rest ih =>
      obtain ⟨group, amount, root⟩ := g
      rw [add_side_nodes]
      exact ih _ _ (add_node_inv b (side_pfx side ++ group) group side (some root)
        ⟨group, rfl⟩ h)

theorem add_side_nodes_preserves_lookup (side : Side)
    (grouped : List (String × ℚ × String)) (b : NodeBuilder)
    (idx : List (String × Nat)) (k : String) (s : Side)
    (h : dlookup k b.side_by_key = some s) :
    dlookup k (add_side_nodes side grouped b idx).2.side_by_key = some s := by
  induction grouped generalizing b idx with
  | nil => simpa [add_side_nodes] using h
  | cons g rest ih =>
      obtain ⟨group, amount, root⟩ := g
      rw [add_side_nodes]
      exact ih _ _ (add_node_preserves_lookup b (side_pfx side ++ group) group side
        (some root) k s h)

theorem build_sankey_builder_inv (view : CashflowView) (state : SankeyState) :
    (build_sankey view state).model.node_keys.Nodup
    ∧ (∀ k s, dlookup k (build_sankey view state).model.side_by_key = some s →
        ∃ r, k = side_pfx s ++ r) := by
  have h1 := add_side_nodes_inv Side.L
    (group_items_by_level view.incoming state.left_focus state.left_level_default).1
    ⟨[], [], [], []⟩ [] node_builder_inv_nil
  have h2 := add_node_inv _ MIDDLE_KEY MIDDLE_LABEL Side.M none
    ⟨"ASSETS", by decide⟩ h1
  have h3 := add_side_nodes_inv Side.R
    (group_items_by_level view.outgoing state.right_focus state.right_level_default).1
    _ [] h2
  have h4 := add_node_inv _ SAVINGS_KEY SAVINGS_LABEL Side.R none
    ⟨"SAVINGS", by decide⟩ h3
  have h5l := add_node_inv _ DEFICIT_KEY DEFICIT_LABEL Side.L none
    ⟨"DEFICIT", by decide⟩ h3
  have h5r := add_node_inv _ DEFICIT_KEY DEFICIT_LABEL Side.L none
    ⟨"DEFICIT", by decide⟩ h4
  by_cases hs : 0 < view.summary.difference <;>
    by_cases hd : view.summary.difference < 0 ∧ state.allow_negative_diff <;>
      simp only [build_sankey, hs, hd, and_self, if_true, if_false] <;>
        first
          | exact ⟨h5r.1, h5r.2.2⟩
          | exact ⟨h5l.1, h5l.2.2⟩
          | exact ⟨h4.1, h4.2.2⟩
          | exact ⟨h3.1, h3.2.2⟩

/-- C1. In `build_sankey_model`: the node key list is pairwise distinct;
every interned key starts with its side marker (`L:`, `M:` or `R:`);
node creation is idempotent (re-adding an interned key returns its
existing index and leaves the store untouched); and a root `Passif`
appearing in both the incoming and the outgoing lists yields the two
distinct keys `L:Passif` / `R:Passif` with the display label `Passif`
twice. -/
theorem build_sankey_model_nodes_spec (view : CashflowView) (state : SankeyState)
    (b : NodeBuilder) (key label : String) (side : Side) (root : Option String) :
    (build_sankey_model view state).node_keys.Nodup
    ∧ (∀ k s, dlookup k (build_sankey_model view state).side_by_key = some s →
        ∃ r, k = side_pfx s ++ r)
    ∧ ((dlookup key b.side_by_key).isSome →
        add_node b key label side root = (b.node_keys.indexOf key, b))
    ∧ ((build_sankey_model
          ⟨⟨5, 5, "EUR"⟩, [⟨"Passif", 5, none⟩], [⟨"Passif", 5, none⟩]⟩ {}).node_keys
            = ["L:Passif", "M:ASSETS", "R:Passif"]
        ∧ (build_sankey_model
          ⟨⟨5, 5, "EUR"⟩, [⟨"Passif", 5, none⟩], [⟨"Passif", 5, none⟩]⟩ {}).node_labels
            = ["Passif", MIDDLE_LABEL, "Passif"]) := by
  refine ⟨(build_sankey_builder_inv view state).1, (build_sankey_builder_inv view state).2,
    ?_, ?_⟩
  · intro hmem
    rw [add_node, if_pos hmem]
  · have hparse : parse_account_path "Passif" = ["Passif"] := by decide
    have hlk : level_key ["Passif"] 1 = "Passif" := by decide
    have happL : "L:" ++ "Passif" = "L:Passif" := by decide
    have happR : "R:" ++ "Passif" = "R:Passif" := by decide
    have hne1 : ¬(("L:Passif":String) = "M:ASSETS") := by decide
    have hne2 : ¬(("L:Passif":String) = "R:Passif") := by decide
    have hne3 : ¬(("M:ASSETS":String) = "R:Passif") := by decide
    have hs : ¬((0:ℚ) < (5:ℚ) - 5) := by norm_num
    have hd : ¬((5:ℚ) - 5 < 0) := by norm_num
    constructor <;>
      (simp only [build_sankey_model, build_sankey, CashflowSummary.difference,
        group_items_by_level, group_items_loop, hparse]
       norm_num [hlk, dlookup, dinsert, add_side_nodes, add_node, happL, happR,
         hne1, hne2, hne3, hs, hd, MIDDLE_KEY, SAVINGS_KEY, DEFICIT_KEY, side_pfx])

/-- Witness for C1: idempotent re-interning applied at a concrete
one-node store. -/
theorem build_sankey_model_nodes_spec_witness :
    (dlookup "L:x" ([("L:x", Side.L)] : List (String × Side))).isSome
    ∧ add_node ⟨["L:x"], ["x"], [("L:x", Side.L)], [("L:x", some "x")]⟩ "L:x" "x"
        Side.L (some "x")
      = (List.indexOf "L:x" ["L:x"],
        ⟨["L:x"], ["x"], [("L:x", Side.L)], [("L:x", some "x")]⟩) :=
  ⟨by decide,
    (build_sankey_model_nodes_spec ⟨⟨0, 0, "EUR"⟩, [], []⟩ {}
      ⟨["L:x"], ["x"], [("L:x", Side.L)], [("L:x", some "x")]⟩ "L:x" "x"
      Side.L (some "x")).2.2.1 (by decide)⟩

/-! ### Theorems: Sankey savings and deficit nodes (C6) -/

theorem savings_key_side (s : Side) (r : String) (h : SAVINGS_KEY = side_pfx s ++ r) :
    s = Side.R := by
  cases s
  · have := congrArg String.data h
    simp [String.data_append, side_pfx, SAVINGS_KEY] at this
  · have := congrArg String.data h
    simp [String.data_append, side_pfx, SAVINGS_KEY] at this
  · rfl

theorem deficit_key_side (s : Side) (r : String) (h : DEFICIT_KEY = side_pfx s ++ r) :
    s = Side.L := by
  cases s
  · rfl
  · have := congrArg String.data h
    simp [String.data_append, side_pfx, DEFICIT_KEY] at this
  · have := congrArg String.data h
    simp [String.data_append, side_pfx, DEFICIT_KEY] at this

theorem lookup_after_add_savings (b : NodeBuilder)
    (h : ∀ k s, dlookup k b.side_by_key = some s → ∃ r, k = side_pfx s ++ r) :
    dlookup SAVINGS_KEY
      (add_node b SAVINGS_KEY SAVINGS_LABEL Side.R none).2.side_by_key = some Side.R := by
  rw [add_node]
  by_cases hmem : (dlookup SAVINGS_KEY b.side_by_key).isSome
  · cases hv : dlookup SAVINGS_KEY b.side_by_key with
    | none => rw [hv] at hmem; simp at hmem
    | some s =>
        obtain ⟨r, hr⟩ := h SAVINGS_KEY s hv
        rw [savings_key_side s r hr] at hv
        simpa [hmem] using hv
  · simp only [hmem, Bool.false_eq_true, if_false]
    exact dlookup_dinsert_self _ _ _

theorem lookup_after_add_deficit (b : NodeBuilder)
    (h : ∀ k s, dlookup k b.side_by_key = some s → ∃ r, k = side_pfx s ++ r) :
    dlookup DEFICIT_KEY
      (add_node b DEFICIT_KEY DEFICIT_LABEL Side.L none).2.side_by_key = some Side.L := by
  rw [add_node]
  by_cases hmem : (dlookup DEFICIT_KEY b.side_by_key).isSome
  · cases hv : dlookup DEFICIT_KEY b.side_by_key with
    | none => rw [hv] at hmem; simp at hmem
    | some s =>
        obtain ⟨r, hr⟩ := h DEFICIT_KEY s hv
        rw [deficit_key_side s r hr] at hv
        simpa [hmem] using hv
  · simp only [hmem, Bool.false_eq_true, if_false]
    exact dlookup_dinsert_self _ _ _

/-- C6. In `build_sankey`: a savings node index is assigned exactly when
the difference is positive, and then the model holds a right-side
`R:SAVINGS` node with a link from the middle node to it valued at
exactly the difference; a deficit node index is assigned exactly when
the difference is negative and `allow_negative_diff` is set, and then
the model holds a left-side `L:DEFICIT` node with a link from it to the
middle node valued at the absolute difference; with
`allow_negative_diff` unset no deficit node is ever created. -/
theorem build_sankey_savings_deficit_spec (view : CashflowView) (state : SankeyState) :
    (0 < view.summary.difference ↔ (build_sankey view state).savings_index.isSome)
    ∧ (∀ i, (build_sankey view state).savings_index = some i →
        dlookup SAVINGS_KEY (build_sankey view state).model.side_by_key = some Side.R
        ∧ SankeyLink.mk (build_sankey view state).middle_index i view.summary.difference
            ∈ (build_sankey view state).model.links)
    ∧ ((view.summary.difference < 0 ∧ state.allow_negative_diff = true) ↔
        (build_sankey view state).deficit_index.isSome)
    ∧ (∀ i, (build_sankey view state).deficit_index = some i →
        dlookup DEFICIT_KEY (build_sankey view state).model.side_by_key = some Side.L
        ∧ SankeyLink.mk i (build_sankey view state).middle_index |view.summary.difference|
            ∈ (build_sankey view state).model.links)
    ∧ (state.allow_negative_diff = false → (build_sankey view state).deficit_index = none) := by
  have h1 := add_side_nodes_inv Side.L
    (group_items_by_level view.incoming state.left_focus state.left_level_default).1
    ⟨[], [], [], []⟩ [] node_builder_inv_nil
  have h2 := add_node_inv _ MIDDLE_KEY MIDDLE_LABEL Side.M none ⟨"ASSETS", by decide⟩ h1
  have h3 := add_side_nodes_inv Side.R
    (group_items_by_level view.outgoing state.right_focus state.right_level_default).1
    _ [] h2
  have h4 := add_node_inv _ SAVINGS_KEY SAVINGS_LABEL Side.R none ⟨"SAVINGS", by decide⟩ h3
  by_cases hs : 0 < view.summary.difference <;>
    by_cases hd : view.summary.difference < 0 ∧ state.allow_negative_diff = true
  · exact absurd hd.1 (by intro h; exact absurd (lt_trans hs h) (lt_irrefl 0))
  · refine ⟨?_, ?_, ?_, ?_, ?_⟩
    · simp only [build_sankey, hs, hd, and_self, if_true, if_false]
      simp
    · intro i hi
      simp only [build_sankey, hs, hd, and_self, if_true, if_false] at hi
      try simp only [Option.some.injEq] at hi
      subst hi
      constructor
      · simp only [build_sankey, hs, hd, and_self, if_true, if_false]
        exact lookup_after_add_savings _ h3.2.2
      · simp only [build_sankey, hs, hd, and_self, if_true, if_false]
        simp
    · simp only [build_sankey, hs, hd, and_self, if_true, if_false]
      simp
    · intro i hi
      simp only [build_sankey, hs, hd, and_self, if_true, if_false] at hi
      cases hi
    · intro h
      simp only [build_sankey, hs, hd, and_self, if_true, if_false]
  · refine ⟨?_, ?_, ?_, ?_, ?_⟩
    · simp only [build_sankey, hs, hd, and_self, if_true, if_false]
      simp
    · intro i hi
      simp only [build_sankey, hs, hd, and_self, if_true, if_false] at hi
      cases hi
    · simp only [build_sankey, hs, hd, and_self, if_true, if_false]
      simp
    · intro i hi
      simp only [build_sankey, hs, hd, and_self, if_true, if_false] at hi
      try simp only [Option.some.injEq] at hi
      subst hi
      constructor
      · simp only [build_sankey, hs, hd, and_self, if_true, if_false]
        exact lookup_after_add_deficit _ h3.2.2
      · simp only [build_sankey, hs, hd, and_self, if_true, if_false]
        simp
    · intro h
      rw [h] at hd
      simp at hd
  · refine ⟨?_, ?_, ?_, ?_, ?_⟩
    · simp only [build_sankey, hs, hd, and_self, if_true, if_false]
      simp
    · intro i hi
      simp only [build_sankey, hs, hd, and_self, if_true, if_false] at hi
      cases hi
    · simp only [build_sankey, hs, hd, and_self, if_true, if_false]
      simp
    · intro i hi
      simp only [build_sankey, hs, hd, and_self, if_true, if_false] at hi
      cases hi
    · intro h
      simp only [build_sankey, hs, hd, and_self, if_true, if_false]

/-- Witness for C6: the savings clause applied at the specification's
surplus example (`total_in=100`, `total_out=80`). -/
theorem build_sankey_savings_deficit_spec_witness :
    (0:ℚ) < (CashflowSummary.mk 100 80 "EUR").difference
    ∧ (build_sankey ⟨⟨100, 80, "EUR"⟩, [⟨"Revenus", 100, none⟩],
        [⟨"Depenses", 80, none⟩]⟩ {}).savings_index.isSome := by
  have hpos : (0:ℚ) < (CashflowSummary.mk 100 80 "EUR").difference := by
    norm_num [CashflowSummary.difference]
  refine ⟨hpos, ?_⟩
  exact (build_sankey_savings_deficit_spec
    ⟨⟨100, 80, "EUR"⟩, [⟨"Revenus", 100, none⟩], [⟨"Depenses", 80, none⟩]⟩ {}).1.mp hpos

/-! ### Theorems: Sankey click handling (C3, C4) -/

theorem side_eq_LL : (Side.L = Side.L) = True := by simp

theorem side_eq_ML : (Side.M = Side.L) = False := by simp

theorem side_eq_RL : (Side.R = Side.L) = False := by simp

theorem apply_click_on_side_spec (state : SankeyState) (side : Side) (root : String)
    (mdbr : List (String × Nat)) :
    (∀ d, dlookup root mdbr = some d → side_current state side root < d →
      (apply_click_on_side state side root mdbr).1 = true
      ∧ dlookup root (side_focus (apply_click_on_side state side root mdbr).2 side)
          = some (side_current state side root + 1)
      ∧ (∀ r, r ≠ root →
          dlookup r (side_focus (apply_click_on_side state side root mdbr).2 side)
            = dlookup r (side_focus state side))
      ∧ side_focus (apply_click_on_side state side root mdbr).2 (other_side side)
          = side_focus state (other_side side))
    ∧ ((dlookup root mdbr).getD (side_current state side root)
          ≤ side_current state side root →
      (apply_click_on_side state side root mdbr).1 = false
      ∧ (apply_click_on_side state side root mdbr).2.left_focus = state.left_focus
      ∧ (apply_click_on_side state side root mdbr).2.right_focus = state.right_focus) := by
  cases side
  · constructor
    · intro d hd hlt
      have hcur : side_current state Side.L root
          = (dlookup root state.left_focus).getD state.left_level_default := by
        simp [side_current, side_focus, side_default]
      have hnle : ¬((dlookup root mdbr).getD
          ((dlookup root state.left_focus).getD state.left_level_default)
          ≤ (dlookup root state.left_focus).getD state.left_level_default) := by
        rw [hd, Option.getD_some, ← hcur]
        omega
      refine ⟨?_, ?_, ?_, ?_⟩
      · simp only [apply_click_on_side, reduceIte, side_eq_LL, side_eq_ML, side_eq_RL, hnle, if_false]
      · simp only [apply_click_on_side, reduceIte, side_eq_LL, side_eq_ML, side_eq_RL, hnle, if_false, side_focus,
          side_current, side_default]
        exact dlookup_dinsert_self _ _ _
      · intro r hr
        simp only [apply_click_on_side, reduceIte, side_eq_LL, side_eq_ML, side_eq_RL, hnle, if_false, side_focus]
        exact dlookup_dinsert_ne _ _ _ _ hr
      · simp only [apply_click_on_side, reduceIte, side_eq_LL, side_eq_ML, side_eq_RL, hnle, if_false, other_side,
          side_focus]
    · intro hle
      have hcur : side_current state Side.L root
          = (dlookup root state.left_focus).getD state.left_level_default := by
        simp [side_current, side_focus, side_default]
      rw [hcur] at hle
      refine ⟨?_, ?_, ?_⟩ <;>
        simp only [apply_click_on_side, reduceIte, side_eq_LL, side_eq_ML, side_eq_RL, hle, if_true]
  · constructor
    · intro d hd hlt
      have hcur : side_current state Side.M root
          = (dlookup root state.right_focus).getD state.right_level_default := by
        simp [side_current, side_focus, side_default]
      have hnle : ¬((dlookup root mdbr).getD
          ((dlookup root state.right_focus).getD state.right_level_default)
          ≤ (dlookup root state.right_focus).getD state.right_level_default) := by
        rw [hd, Option.getD_some, ← hcur]
        omega
      refine ⟨?_, ?_, ?_, ?_⟩
      · simp only [apply_click_on_side, reduceIte, side_eq_LL, side_eq_ML, side_eq_RL, hnle, if_false]
      · simp only [apply_click_on_side, reduceIte, side_eq_LL, side_eq_ML, side_eq_RL, hnle, if_false, side_focus,
          side_current, side_default]
        exact dlookup_dinsert_self _ _ _
      · intro r hr
        simp only [apply_click_on_side, reduceIte, side_eq_LL, side_eq_ML, side_eq_RL, hnle, if_false, side_focus]
        exact dlookup_dinsert_ne _ _ _ _ hr
      · simp only [apply_click_on_side, reduceIte, side_eq_LL, side_eq_ML, side_eq_RL, hnle, if_false, other_side,
          side_focus]
    · intro hle
      have hcur : side_current state Side.M root
          = (dlookup root state.right_focus).getD state.right_level_default := by
        simp [side_current, side_focus, side_default]
      rw [hcur] at hle
      refine ⟨?_, ?_, ?_⟩ <;>
        simp only [apply_click_on_side, reduceIte, side_eq_LL, side_eq_ML, side_eq_RL, hle, if_true]
  · constructor
    · intro d hd hlt
      have hcur : side_current state Side.R root
          = (dlookup root state.right_focus).getD state.right_level_default := by
        simp [side_current, side_focus, side_default]
      have hnle : ¬((dlookup root mdbr).getD
          ((dlookup root state.right_focus).getD state.right_level_default)
          ≤ (dlookup root state.right_focus).getD state.right_level_default) := by
        rw [hd, Option.getD_some, ← hcur]
        omega
      refine ⟨?_, ?_, ?_, ?_⟩
      · simp only [apply_click_on_side, reduceIte, side_eq_LL, side_eq_ML, side_eq_RL, hnle, if_false]
      · simp only [apply_click_on_side, reduceIte, side_eq_LL, side_eq_ML, side_eq_RL, hnle, if_false, side_focus,
          side_current, side_default]
        exact dlookup_dinsert_self _ _ _
      · intro r hr
        simp only [apply_click_on_side, reduceIte, side_eq_LL, side_eq_ML, side_eq_RL, hnle, if_false, side_focus]
        exact dlookup_dinsert_ne _ _ _ _ hr
      · simp only [apply_click_on_side, reduceIte, side_eq_LL, side_eq_ML, side_eq_RL, hnle, if_false, other_side,
          side_focus]
    · intro hle
      have hcur : side_current state Side.R root
          = (dlookup root state.right_focus).getD state.right_level_default := by
        simp [side_current, side_focus, side_default]
      rw [hcur] at hle
      refine ⟨?_, ?_, ?_⟩ <;>
        simp only [apply_click_on_side, reduceIte, side_eq_LL, side_eq_ML, side_eq_RL, hle, if_true]

theorem apply_click_resolves (state : SankeyState) (model : SankeyModel) (idx : Nat)
    (key : String) (side : Side) (root : String)
    (hkey : dlookup idx model.key_by_index = some key) (hkne : key ≠ "")
    (hside : dlookup key model.side_by_key = some side)
    (hLR : side = Side.L ∨ side = Side.R)
    (hroot : (dlookup key model.root_by_key).getD none = some root) (hrne : root ≠ "") :
    apply_click state model idx
      = apply_click_on_side state side root (side_max_depth model side) := by
  rcases hLR with hL | hR
  · subst hL
    simp only [apply_click, hkey, hside, hroot, if_neg hkne, if_neg hrne,
      side_max_depth, side_eq_LL, if_true]
  · subst hR
    simp only [apply_click, hkey, hside, hroot, if_neg hkne, if_neg hrne,
      side_max_depth, side_eq_RL, if_false]

/-- C3. `apply_click`: an unresolvable index, a falsy key, a non-`L`/`R`
side or a falsy root is a no-op that returns `false` and leaves the state
exactly as it was; a left/right node whose root sits strictly below its
side's recorded maximum depth returns `true` and sets that root's focus
entry to exactly one more than its current depth, touching no other
focus entry on either side; a root at or above its maximum (or with no
recorded maximum) returns `false` and leaves both focus maps unchanged. -/
theorem apply_click_spec (state : SankeyState) (model : SankeyModel) (idx : Nat) :
    (dlookup idx model.key_by_index = none → apply_click state model idx = (false, state))
    ∧ (∀ key, dlookup idx model.key_by_index = some key →
        (key = ""
          ∨ (∀ s, dlookup key model.side_by_key = some s → s ≠ Side.L ∧ s ≠ Side.R)
          ∨ dlookup key model.side_by_key = none
          ∨ (dlookup key model.root_by_key).getD none = none
          ∨ (dlookup key model.root_by_key).getD none = some "") →
        apply_click state model idx = (false, state))
    ∧ (∀ key side root, dlookup idx model.key_by_index = some key → key ≠ "" →
        dlookup key model.side_by_key = some side → (side = Side.L ∨ side = Side.R) →
        (dlookup key model.root_by_key).getD none = some root → root ≠ "" →
        (∀ d, dlookup root (side_max_depth model side) = some d →
          side_current state side root < d →
          (apply_click state model idx).1 = true
          ∧ dlookup root (side_focus (apply_click state model idx).2 side)
              = some (side_current state side root + 1)
          ∧ (∀ r, r ≠ root →
              dlookup r (side_focus (apply_click state model idx).2 side)
                = dlookup r (side_focus state side))
          ∧ side_focus (apply_click state model idx).2 (other_side side)
              = side_focus state (other_side side))
        ∧ ((dlookup root (side_max_depth model side)).getD (side_current state side root)
              ≤ side_current state side root →
          (apply_click state model idx).1 = false
          ∧ (apply_click state model idx).2.left_focus = state.left_focus
          ∧ (apply_click state model idx).2.right_focus = state.right_focus)) := by
  refine ⟨?_, ?_, ?_⟩
  · intro h
    simp only [apply_click, h]
  · intro key hkey hbad
    rcases hbad with hb | hb | hb | hb | hb
    · subst hb
      simp only [apply_click, hkey, if_true, eq_self_iff_true]
    · simp only [apply_click, hkey]
      cases hside : dlookup key model.side_by_key with
      | none =>
          cases (dlookup key model.root_by_key).getD none <;> simp
      | some s =>
          obtain ⟨hL, hR⟩ := hb s hside
          cases s
          · exact absurd rfl hL
          · cases (dlookup key model.root_by_key).getD none <;> simp
          · exact absurd rfl hR
    · simp only [apply_click, hkey, hb]
      cases (dlookup key model.root_by_key).getD none <;> simp
    · simp only [apply_click, hkey, hb]
      cases dlookup key model.side_by_key with
      | none => simp
      | some s => cases s <;> simp
    · simp only [apply_click, hkey, hb]
      cases dlookup key model.side_by_key with
      | none => simp
      | some s => cases s <;> simp
  · intro key side root hkey hkne hside hLR hroot hrne
    rw [apply_click_resolves state model idx key side root hkey hkne hside hLR hroot hrne]
    exact apply_click_on_side_spec state side root (side_max_depth model side)

/-- Witness for C3: a click on the single left node of a one-node model
whose root has maximum depth 3 and current depth 1 advances that root's
focus entry to 2. -/
theorem apply_click_spec_witness :
    (apply_click {} ⟨["A"], ["L:A"], [], [(0, "L:A")], [("L:A", Side.L)],
        [("L:A", some "A")], [("A", 3)], []⟩ 0).1 = true
    ∧ dlookup "A" (side_focus (apply_click {} ⟨["A"], ["L:A"], [], [(0, "L:A")],
        [("L:A", Side.L)], [("L:A", some "A")], [("A", 3)], []⟩ 0).2 Side.L)
      = some 2 := by
  have h := ((apply_click_spec {} ⟨["A"], ["L:A"], [], [(0, "L:A")], [("L:A", Side.L)],
      [("L:A", some "A")], [("A", 3)], []⟩ 0).2.2 "L:A" Side.L "A"
    (by decide) (by decide) (by decide) (Or.inl rfl) (by decide) (by decide)).1
    3 (by decide) (by decide)
  refine ⟨h.1, ?_⟩
  have hc : side_current ({} : SankeyState) Side.L "A" + 1 = 2 := by decide
  rw [← hc]
  exact h.2.1

/-- C4. A click resolved to a left/right per-root node whose root is
already at or above its recorded maximum depth returns `false` but still
records the clicked side and root, and a subsequent `reset_last_branch`
pops exactly that root's entry from the clicked side's focus map,
leaving the other side untouched and reverting that root's effective
depth to the side default. The focus maps are assumed duplicate-free, as
Python dicts are by construction. -/
theorem apply_click_then_reset_spec (state : SankeyState) (model : SankeyModel)
    (idx : Nat) (key root : String) (side : Side)
    (hwf : (dkeys (side_focus state side)).Nodup)
    (hkey : dlookup idx model.key_by_index = some key) (hkne : key ≠ "")
    (hside : dlookup key model.side_by_key = some side)
    (hLR : side = Side.L ∨ side = Side.R)
    (hroot : (dlookup key model.root_by_key).getD none = some root) (hrne : root ≠ "")
    (hmax : (dlookup root (side_max_depth model side)).getD (side_current state side root)
        ≤ side_current state side root) :
    (apply_click state model idx).1 = false
    ∧ (apply_click state model idx).2.last_clicked_side = some side
    ∧ (apply_click state model idx).2.last_clicked_root = some root
    ∧ side_focus ((apply_click state model idx).2.reset_last_branch) side
        = dpop (side_focus state side) root
    ∧ dlookup root (side_focus ((apply_click state model idx).2.reset_last_branch) side)
        = none
    ∧ side_focus ((apply_click state model idx).2.reset_last_branch) (other_side side)
        = side_focus state (other_side side)
    ∧ side_current ((apply_click state model idx).2.reset_last_branch) side root
        = side_default state side := by
  rw [apply_click_resolves state model idx key side root hkey hkne hside hLR hroot hrne]
  rcases hLR with hL | hR
  · subst hL
    simp only [side_max_depth, side_current, side_focus, side_default, side_eq_LL,
      if_true] at hmax
    have hpop : dlookup root (dpop state.left_focus root) = none := by
      apply dlookup_dpop_self
      simpa [side_focus] using hwf
    refine ⟨?_, ?_, ?_, ?_, ?_, ?_, ?_⟩ <;>
      simp only [apply_click_on_side, side_max_depth, reduceIte, side_eq_LL, side_eq_ML,
        side_eq_RL, if_false, hmax, if_true, SankeyState.reset_last_branch,
        if_neg hrne, side_focus, side_default, side_current, other_side]
    · exact hpop
    · rw [hpop]
      rfl
  · subst hR
    simp only [side_max_depth, side_current, side_focus, side_default, side_eq_RL,
      if_false] at hmax
    have hpop : dlookup root (dpop state.right_focus root) = none := by
      apply dlookup_dpop_self
      simpa [side_focus] using hwf
    refine ⟨?_, ?_, ?_, ?_, ?_, ?_, ?_⟩ <;>
      simp only [apply_click_on_side, side_max_depth, reduceIte, side_eq_LL, side_eq_ML,
        side_eq_RL, if_false, hmax, if_true, SankeyState.reset_last_branch,
        if_neg hrne, side_focus, side_default, side_current, other_side]
    · exact hpop
    · rw [hpop]
      rfl

/-- Witness for C4: a no-op click on a root at maximum depth (current 2,
maximum 1) records the branch, and the reset reverts the root to the
default depth 1. -/
theorem apply_click_then_reset_spec_witness :
    (apply_click { left_focus := [("A", 2)] } ⟨["A"], ["L:A"], [], [(0, "L:A")],
        [("L:A", Side.L)], [("L:A", some "A")], [("A", 1)], []⟩ 0).1 = false
    ∧ side_current ((apply_click { left_focus := [("A", 2)] } ⟨["A"], ["L:A"], [],
        [(0, "L:A")], [("L:A", Side.L)], [("L:A", some "A")], [("A", 1)],
        []⟩ 0).2.reset_last_branch) Side.L "A"
      = side_default { left_focus := [("A", 2)] } Side.L := by
  have h := apply_click_then_reset_spec { left_focus := [("A", 2)] }
    ⟨["A"], ["L:A"], [], [(0, "L:A")], [("L:A", Side.L)], [("L:A", some "A")],
      [("A", 1)], []⟩ 0 "L:A" "A" Side.L (by decide) (by decide) (by decide) (by decide)
    (Or.inl rfl) (by decide) (by decide) (by decide)
  exact ⟨h.1, h.2.2.2.2.2.2⟩

end GnuCashDash
